import Mathlib

/-!
Load generator core: worker pool metrics, token-bucket limiter, ramp-up controller.

A shallow embedding of `worker/ratelimit.go`, `worker/pool.go`, the structs of
`config/config.go` and `Processor.ProcessMap` of `template/processor.go`.

Conventions of the embedding.

* Go `int`, `int64` and `time.Duration` values are integers; arithmetic that Go
  performs on them is reduced by `wrap64` (two's complement, 64 bit).
* Go `float64` values are the rationals they denote.  Every float64 operation
  is the exact operation followed by `f64`, the IEEE-754 binary64
  round-to-nearest, ties-to-even rounding with 53 significant bits.  Exponent
  range (overflow to infinity, subnormals, NaN) is not modelled: the values
  that occur for rates of at least 1 stay far inside the normal range.
  Products and sums are rounded separately (no fused multiply-add), as the Go
  compiler does on amd64.
* A runtime panic is an `Except.error`.
* Clock readings (`time.Now()`, `time.Since`) and the outcome of a `select`
  are inputs of the functions that perform them.
-/

namespace StressTester

/-! ## Machine arithmetic -/

/-- Runtime panics that the modelled code can raise. -/
inductive Panic where
  | divideByZero
  | indexOutOfRange
  | makechanSize
  | intnArgument
  | nonPositiveInterval
  deriving DecidableEq, Repr

/-- Two-complement reduction of an integer into the range of a 64-bit signed integer. -/
def wrap64 (x : Int) : Int := (x + 2 ^ 63) % 2 ^ 64 - 2 ^ 63

/-- Go integer division on 64-bit integers: truncated quotient, panic on a zero divisor. -/
def goDiv (a b : Int) : Except Panic Int :=
  if b = 0 then .error .divideByZero else .ok (wrap64 (Int.tdiv a b))

/-- Round to the nearest integer, ties to the even one. -/
def roundHalfEven (x : ℚ) : ℤ :=
  if x - ⌊x⌋ < 1 / 2 then ⌊x⌋
  else if 1 / 2 < x - ⌊x⌋ then ⌊x⌋ + 1
  else if ⌊x⌋ % 2 = 0 then ⌊x⌋ else ⌊x⌋ + 1

/-- Rounding of an exact value to binary64: the significand is rounded to 53 bits,
to nearest, ties to even. -/
def f64 (q : ℚ) : ℚ :=
  if q = 0 then 0
  else roundHalfEven (q / (2 : ℚ) ^ (Int.log 2 |q| - 52)) * (2 : ℚ) ^ (Int.log 2 |q| - 52)

/-- Go conversion of a float64 to an integer type: truncation toward zero. -/
def truncToInt (q : ℚ) : Int := if 0 ≤ q then ⌊q⌋ else ⌈q⌉

/-- Values with a significand of at most 53 bits, the fixed points of `f64`. -/
def Representable (q : ℚ) : Prop := ∃ m e : ℤ, |m| ≤ 2 ^ 53 ∧ q = m * (2 : ℚ) ^ e

/-! ## Time -/

/-- The constant `time.Second`, in nanoseconds. -/
def Second : Int := 1000000000

/-- The largest `time.Duration`. -/
def maxDuration : Int := 2 ^ 63 - 1

/-- The smallest `time.Duration`. -/
def minDuration : Int := -2 ^ 63

/-- The method `Time.Sub` on clock readings in nanoseconds: the difference, saturated to the
range of `time.Duration`. -/
def timeSub (t u : Int) : Int :=
  if t - u > maxDuration then maxDuration
  else if t - u < minDuration then minDuration
  else t - u

/-- The method `Duration.Seconds` of the Go standard library:
`float64(d / Second) + float64(d % Second) / 1e9`. -/
def Seconds (d : Int) : ℚ :=
  f64 (f64 (Int.tdiv d Second) + f64 (f64 (Int.tmod d Second) / 1000000000))

/-! ## worker/ratelimit.go -/

/-- The struct `RateLimiter` (the mutex is left out: every method holds it from entry to
return, so calls are atomic). -/
structure RateLimiter where
  rate : ℚ
  interval : Int
  lastCheck : Int
  tokens : ℚ
  deriving DecidableEq

/-- The function `NewRateLimiter`; `now` is the reading of `time.Now()`. -/
def NewRateLimiter (rps : Int) (now : Int) : Except Panic RateLimiter :=
  match goDiv Second rps with
  | .error e => .error e
  | .ok iv =>
    .ok { rate := f64 rps, interval := iv, lastCheck := now, tokens := f64 rps }

/-- What a call of `Wait` yields: the returned error (`none` is `nil`, `some ()` is
`ctx.Err()`), the duration handed to `time.After` (0 when the call does not suspend), and the
limiter afterwards. -/
structure WaitResult where
  err : Option Unit
  waitTime : Int
  suspended : Bool
  state : RateLimiter
  deriving DecidableEq

/-- The token count after the refill step of `Wait`, before anything is consumed. -/
def refill (r : RateLimiter) (now : Int) : ℚ :=
  let elapsed := Seconds (timeSub now r.lastCheck)
  let tokens := f64 (r.tokens + f64 (elapsed * r.rate))
  if tokens > r.rate then r.rate else tokens

/-- The method `RateLimiter.Wait`.  `now` is the reading of `time.Now()`; `ctxDone` tells
whether the `select` takes the `ctx.Done()` branch (it is only consulted when the call
suspends). -/
def Wait (r : RateLimiter) (now : Int) (ctxDone : Bool) : WaitResult :=
  let tokens := refill r now
  if tokens < 1 then
    let waitTime := truncToInt (f64 (f64 (f64 (1 - tokens) / r.rate) * (Second : ℚ)))
    if ctxDone then
      { err := some (), waitTime := waitTime, suspended := true,
        state := { r with lastCheck := now, tokens := tokens } }
    else
      { err := none, waitTime := waitTime, suspended := true,
        state := { r with lastCheck := now, tokens := f64 (1 - 1) } }
  else
    { err := none, waitTime := 0, suspended := false,
      state := { r with lastCheck := now, tokens := f64 (tokens - 1) } }

/-- The method `RateLimiter.UpdateRate`.  At `rps = 0` the division for `interval` panics;
the assignment to `rate` that precedes it is not kept, since the panic is not recovered and
ends the program. -/
def UpdateRate (r : RateLimiter) (rps : Int) : Except Panic RateLimiter :=
  match goDiv Second rps with
  | .error e => .error e
  | .ok iv =>
    .ok { r with
      rate := f64 rps
      interval := iv
      tokens := if r.tokens > f64 rps then f64 rps else r.tokens }

/-! ## config/config.go -/

/-- The struct `config.Endpoint`.  Maps are association lists; the body is the decoded
YAML value, kept as an uninterpreted token (`none` is `nil`). -/
structure Endpoint where
  URL : String
  Method : String
  Headers : List (String × String)
  QueryParams : List (String × String)
  Body : Option String
  deriving DecidableEq

/-- The struct `config.LoadPattern` (the field `Type` is named `PatternType`). -/
structure LoadPattern where
  PatternType : String
  StartRPS : Int
  Increment : Int
  Interval : Int
  deriving DecidableEq

/-- The struct `config.Config`. -/
structure Config where
  Endpoints : List Endpoint
  LoadPattern : LoadPattern
  Duration : Int
  MaxRPS : Int
  deriving DecidableEq

/-- The struct `config.LatencyStats`. -/
structure LatencyStats where
  Min : Int := 0
  Max : Int := 0
  Mean : Int := 0
  P50 : Int := 0
  P95 : Int := 0
  P99 : Int := 0
  deriving DecidableEq

/-- The struct `config.Metrics` (`CurrentRPS` is never written and is left out). -/
structure Metrics where
  TotalRequests : Int := 0
  SuccessfulRequests : Int := 0
  FailedRequests : Int := 0
  LatencyStats : LatencyStats := {}
  deriving DecidableEq

/-! ## worker/pool.go -/

/-- The struct `Pool`: the fields that hold data (channels, wait group, mutex and HTTP
client are left out). -/
structure Pool where
  workers : Int
  metrics : Metrics
  config : Config
  latencies : List Int
  rateLimiter : RateLimiter
  deriving DecidableEq

/-- The function `NewPool`; `now` is the reading of `time.Now()` inside `NewRateLimiter`. -/
def NewPool (workers : Int) (cfg : Config) (now : Int) : Except Panic Pool :=
  if workers < 0 then .error .makechanSize
  else
    match NewRateLimiter cfg.LoadPattern.StartRPS now with
    | .error e => .error e
    | .ok rl =>
      .ok { workers := workers, metrics := {}, config := cfg, latencies := [],
            rateLimiter := rl }

/-- The index computed by `calculatePercentile`:
`int(float64(len(p.latencies)-1) * percentile)`. -/
def percentileIndex (len : Nat) (percentile : ℚ) : Int :=
  truncToInt (f64 (f64 (((len : Int) - 1 : Int) : ℚ) * percentile))

/-- The method `Pool.calculatePercentile`. -/
def calculatePercentile (p : Pool) (percentile : ℚ) : Except Panic Int :=
  if p.latencies.length = 0 then .ok 0
  else
    let index := percentileIndex p.latencies.length percentile
    if index < 0 then .error .indexOutOfRange
    else
      match p.latencies[index.toNat]? with
      | some v => .ok v
      | none => .error .indexOutOfRange

/-- The method `Pool.updateMetrics`; `duration` is the value of `time.Since(start)`. -/
def updateMetrics (p : Pool) (duration : Int) (success : Bool) : Except Panic Pool :=
  let total := wrap64 (p.metrics.TotalRequests + 1)
  let succ := if success then wrap64 (p.metrics.SuccessfulRequests + 1)
    else p.metrics.SuccessfulRequests
  let fail := if success then p.metrics.FailedRequests
    else wrap64 (p.metrics.FailedRequests + 1)
  let appended := p.latencies ++ [duration]
  let latencies := if appended.length > 1000 then appended.drop 1 else appended
  let min := if p.metrics.LatencyStats.Min = 0 ∨ duration < p.metrics.LatencyStats.Min
    then duration else p.metrics.LatencyStats.Min
  let max := if duration > p.metrics.LatencyStats.Max
    then duration else p.metrics.LatencyStats.Max
  let sum := latencies.foldl (fun acc lat => wrap64 (acc + lat)) 0
  match goDiv sum latencies.length with
  | .error e => .error e
  | .ok mean =>
    let p1 : Pool := { p with
      latencies := latencies
      metrics := { TotalRequests := total, SuccessfulRequests := succ, FailedRequests := fail,
                   LatencyStats := { p.metrics.LatencyStats with
                     Min := min, Max := max, Mean := mean } } }
    if latencies.length > 0 then
      match calculatePercentile p1 (f64 (1 / 2)) with
      | .error e => .error e
      | .ok p50 =>
        match calculatePercentile p1 (f64 (95 / 100)) with
        | .error e => .error e
        | .ok p95 =>
          match calculatePercentile p1 (f64 (99 / 100)) with
          | .error e => .error e
          | .ok p99 =>
            .ok { p1 with metrics := { p1.metrics with
                    LatencyStats := { p1.metrics.LatencyStats with
                      P50 := p50, P95 := p95, P99 := p99 } } }
    else .ok p1

/-- A sequence of `updateMetrics` calls, each given by its duration and success flag. -/
def recordAll (p : Pool) : List (Int × Bool) → Except Panic Pool
  | [] => .ok p
  | c :: rest =>
    match updateMetrics p c.1 c.2 with
    | .error e => .error e
    | .ok p1 => recordAll p1 rest

/-- The request that `executeRequest` builds and hands to the HTTP client: method, URI, the
headers set, the query arguments added and the body set (`none` when no body is set). -/
structure Request where
  Method : String
  URI : String
  Headers : List (String × String)
  QueryArgs : List (String × String)
  Body : Option String
  deriving DecidableEq

/-- The external collaborators of `executeRequest`, as functions that return a value or an
error: template rendering (`Processor.ProcessTemplate(tmpl, nil)`, which runs
`text/template`), `json.Marshal`, and the transport `client.Do`, which yields its error
(`none` is `nil`) and the status code of the response. -/
structure Collaborators where
  ProcessTemplate : String → Except String String
  Marshal : String → Except String String
  Do : Request → Option String × Int

/-- The method `Processor.ProcessMap` of `template/processor.go`: every value is rendered;
the first failure is returned. -/
def ProcessMap (c : Collaborators) :
    List (String × String) → Except String (List (String × String))
  | [] => .ok []
  | kv :: rest =>
    match c.ProcessTemplate kv.2 with
    | .error e => .error e
    | .ok processed =>
      match ProcessMap c rest with
      | .error e => .error e
      | .ok result => .ok ((kv.1, processed) :: result)

/-- What one call of `executeRequest` did: the pool afterwards, the success flags it passed
to `updateMetrics` and the requests it handed to `client.Do`, both in order. -/
structure ExecResult where
  pool : Pool
  recorded : List Bool
  sent : List Request
  deriving DecidableEq

/-- The method `Pool.executeRequest` from the point where the endpoint has been selected;
`duration` is the value of `time.Since(start)` in the one call of `updateMetrics` that is
reached. -/
def executeEndpoint (p : Pool) (c : Collaborators) (endpoint : Endpoint) (duration : Int) :
    Except Panic ExecResult :=
  let failed : Except Panic ExecResult :=
    match updateMetrics p duration false with
    | .error e => .error e
    | .ok p1 => .ok { pool := p1, recorded := [false], sent := [] }
  match ProcessMap c endpoint.Headers with
  | .error _ => failed
  | .ok headers =>
    let query : Except String (List (String × String)) :=
      if endpoint.QueryParams.length > 0 then ProcessMap c endpoint.QueryParams
      else .ok []
    match query with
    | .error _ => failed
    | .ok queryParams =>
      let body : Except String (Option String) :=
        match endpoint.Body with
        | none => .ok none
        | some b =>
          match c.Marshal b with
          | .error e => .error e
          | .ok bodyStr =>
            match c.ProcessTemplate bodyStr with
            | .error e => .error e
            | .ok processedBody => .ok (some processedBody)
      match body with
      | .error _ => failed
      | .ok processedBody =>
        let req : Request :=
          { Method := endpoint.Method, URI := endpoint.URL, Headers := headers,
            QueryArgs := queryParams, Body := processedBody }
        let resp := c.Do req
        let success := resp.1.isNone && decide (resp.2 ≥ 200) && decide (resp.2 < 300)
        match updateMetrics p duration success with
        | .error e => .error e
        | .ok p1 => .ok { pool := p1, recorded := [success], sent := [req] }

/-- The method `Pool.executeRequest`: an endpoint is drawn with `rand.Intn` (`pick` is the
draw; `rand.Intn` panics on an empty endpoint list), then the request is built, sent and
recorded. -/
def executeRequest (p : Pool) (c : Collaborators) (pick : Nat) (duration : Int) :
    Except Panic ExecResult :=
  if p.config.Endpoints.length = 0 then .error .intnArgument
  else
    match p.config.Endpoints[pick % p.config.Endpoints.length]? with
    | none => .error .indexOutOfRange
    | some endpoint => executeEndpoint p c endpoint duration

/-- The rendering steps of the specification, for one endpoint: headers, query parameters
(when there are any) and body (when there is one: serialising it, then rendering it) all
succeed. -/
def renderingSucceeds (c : Collaborators) (ep : Endpoint) : Bool :=
  (match ProcessMap c ep.Headers with
    | .ok _ => true
    | .error _ => false) &&
  (ep.QueryParams.isEmpty ||
    match ProcessMap c ep.QueryParams with
    | .ok _ => true
    | .error _ => false) &&
  (match ep.Body with
    | none => true
    | some b =>
      match c.Marshal b with
      | .error _ => false
      | .ok bodyStr =>
        match c.ProcessTemplate bodyStr with
        | .ok _ => true
        | .error _ => false)

/-- Where the goroutine that runs `controlLoadPattern` stands: whether the function has
returned, and its local variable `currentRPS`. -/
structure Controller where
  exited : Bool
  currentRPS : Int
  deriving DecidableEq

/-- What can become ready while the loop of `controlLoadPattern` is in its `select`: the
ticker fires, the context is cancelled, or `Stop` closes the stop channel. -/
inductive ControlEvent where
  | tick
  | ctxDone
  | stop
  deriving DecidableEq

/-- The method `Pool.controlLoadPattern` from its entry to the head of the loop: it returns at
once unless the pattern is "ramp-up"; `time.NewTicker` panics on a non-positive interval. -/
def controlStart (cfg : Config) : Except Panic Controller :=
  if cfg.LoadPattern.PatternType != "ramp-up" then .ok { exited := true, currentRPS := 0 }
  else if cfg.LoadPattern.Interval ≤ 0 then .error .nonPositiveInterval
  else .ok { exited := false, currentRPS := cfg.LoadPattern.StartRPS }

/-- One pass through the `select` of the loop in `controlLoadPattern`.  Its cases are
`ctx.Done()` (return) and `ticker.C` (raise `currentRPS` by the increment, clamp it at
`MaxRPS`, push it with `UpdateRate`); the stop channel is not among them. -/
def controlStep (cfg : Config) (c : Controller) (rl : RateLimiter) :
    ControlEvent → Except Panic (Controller × RateLimiter)
  | .ctxDone => .ok ({ c with exited := true }, rl)
  | .stop => .ok (c, rl)
  | .tick =>
    if c.exited then .ok (c, rl)
    else
      let raised := wrap64 (c.currentRPS + cfg.LoadPattern.Increment)
      let clamped := if raised > cfg.MaxRPS then cfg.MaxRPS else raised
      match UpdateRate rl clamped with
      | .error e => .error e
      | .ok rl1 => .ok ({ c with currentRPS := clamped }, rl1)

/-- The loop of `controlLoadPattern` over a sequence of events. -/
def controlRun (cfg : Config) (c : Controller) (rl : RateLimiter) :
    List ControlEvent → Except Panic (Controller × RateLimiter)
  | [] => .ok (c, rl)
  | ev :: rest =>
    match controlStep cfg c rl ev with
    | .error e => .error e
    | .ok (c1, rl1) => controlRun cfg c1 rl1 rest

/-- The method `Pool.controlLoadPattern` on the limiter of the pool, over a sequence of
events. -/
def controlLoadPattern (p : Pool) (events : List ControlEvent) :
    Except Panic (Controller × RateLimiter) :=
  match controlStart p.config with
  | .error e => .error e
  | .ok c => controlRun p.config c p.rateLimiter events

/-! ## Sequences of limiter operations -/

/-- One call on the limiter: `Wait` (with the clock reading and the outcome of its `select`)
or `UpdateRate`. -/
inductive LimiterOp where
  | wait (now : Int) (ctxDone : Bool)
  | updateRate (rps : Int)
  deriving DecidableEq

/-- The limiter after one call. -/
def applyOp (r : RateLimiter) : LimiterOp → Except Panic RateLimiter
  | .wait now ctxDone => .ok (Wait r now ctxDone).state
  | .updateRate rps => UpdateRate r rps

/-- The limiter after a sequence of calls. -/
def applyOps (r : RateLimiter) : List LimiterOp → Except Panic RateLimiter
  | [] => .ok r
  | op :: rest =>
    match applyOp r op with
    | .error e => .error e
    | .ok r1 => applyOps r1 rest

/-- A schedule in which the clock never runs backwards (every `Wait` sees a non-negative
elapsed time; `last` is the clock reading of the previous call) and every `UpdateRate` is
asked for a rate of at least 1. -/
def validOps (last : Int) : List LimiterOp → Bool
  | [] => true
  | .wait now _ :: rest => decide (last ≤ now) && validOps now rest
  | .updateRate rps :: rest => decide (1 ≤ rps) && validOps last rest

/-- The invariant that makes `0 ≤ tokens ≤ rate` inductive: in addition both fields hold
float64 values and the rate is at least 1. -/
def LimiterInv (r : RateLimiter) : Prop :=
  0 ≤ r.tokens ∧ r.tokens ≤ r.rate ∧ Representable r.tokens ∧ Representable r.rate ∧
    1 ≤ r.rate

/-- The limiter after `k` successive calls of `Wait`, all at the clock reading `now`, none
cancelled. -/
def waitN (r : RateLimiter) (now : Int) : Nat → RateLimiter
  | 0 => r
  | k + 1 => (Wait (waitN r now k) now false).state

/-! ## One caller, explicit clock -/

/-- A single caller that issues `Wait` calls one after another, none of them cancelled.
`clock` is the time at which the previous call returned and each element of `gaps` is the
idle time before the next call is issued.  A call that suspends returns after the wait time
it computed (`time.After` fires at once for a non-positive duration), the others return at
once.  The result lists, call by call, the time of return and the returned error. -/
def sequentialWaits (r : RateLimiter) (clock : Int) : List Int → List (Int × Option Unit)
  | [] => []
  | gap :: rest =>
    let w := Wait r (clock + gap) false
    let returned := clock + gap + (if w.suspended then max w.waitTime 0 else 0)
    (returned, w.err) :: sequentialWaits w.state returned rest

/-- The number of calls that returned success at a time in the span of `span` nanoseconds
that begins at `start` (both ends included). -/
def admittedWithin (results : List (Int × Option Unit)) (start span : Int) : Nat :=
  (results.filter
    (fun x => x.2.isNone && decide (start ≤ x.1) && decide (x.1 ≤ start + span))).length

/-- A limiter of rate 1 that was last checked at `t` and holds `tokens` tokens. -/
def unitState (t : Int) (tokens : ℚ) : RateLimiter :=
  { rate := 1, interval := 1000000000, lastCheck := t, tokens := tokens }

/-! ## Concrete inputs used to instantiate the theorems -/

/-- One endpoint without query parameters or body, as in `pool_test.go`. -/
def exampleEndpoint : Endpoint :=
  { URL := "https://jsonplaceholder.typicode.com/posts/1", Method := "GET",
    Headers := [("Content-Type", "application/json")], QueryParams := [], Body := none }

/-- The ramp-up configuration of `TestPool_LoadPattern`. -/
def exampleConfig : Config :=
  { Endpoints := [exampleEndpoint],
    LoadPattern := { PatternType := "ramp-up", StartRPS := 10, Increment := 5,
                     Interval := 1000000000 },
    Duration := 0, MaxRPS := 30 }

/-- The limiter that `NewRateLimiter 10 0` builds. -/
def exampleLimiter : RateLimiter :=
  { rate := f64 ((10 : Int) : ℚ), interval := 100000000, lastCheck := 0,
    tokens := f64 ((10 : Int) : ℚ) }

/-- The pool that `NewPool 5 exampleConfig 0` builds. -/
def examplePool : Pool :=
  { workers := 5, metrics := {}, config := exampleConfig, latencies := [],
    rateLimiter := exampleLimiter }

/-- The limiter that `NewRateLimiter 1 0` builds. -/
def unitLimiter : RateLimiter :=
  { rate := f64 ((1 : Int) : ℚ), interval := 1000000000, lastCheck := 0,
    tokens := f64 ((1 : Int) : ℚ) }

/-- The ramp-up scenario of the specification: start 10, increment 5, interval 1 s,
ceiling 20. -/
def scenarioConfig : Config :=
  { Endpoints := [exampleEndpoint],
    LoadPattern := { PatternType := "ramp-up", StartRPS := 10, Increment := 5,
                     Interval := 1000000000 },
    Duration := 0, MaxRPS := 20 }

/-- The pool that `NewPool 5 scenarioConfig 0` builds. -/
def scenarioPool : Pool :=
  { workers := 5, metrics := {}, config := scenarioConfig, latencies := [],
    rateLimiter := exampleLimiter }

/-- A ramp-up configuration whose `max_rps` is left at its zero value. -/
def noCeilingPool : Pool :=
  { scenarioPool with config := { scenarioConfig with MaxRPS := 0 } }

/-- A ramp-up configuration whose first raise exceeds the range of `int`. -/
def overflowPool : Pool :=
  { scenarioPool with config :=
      { scenarioConfig with
        LoadPattern := { PatternType := "ramp-up", StartRPS := 2 ^ 62, Increment := 2 ^ 62,
                         Interval := 1000000000 }
        MaxRPS := 2 ^ 63 - 1 } }

/-- Collaborators that render every template to itself and answer every request with
status 200. -/
def exampleCollaborators : Collaborators :=
  { ProcessTemplate := fun t => .ok t
    Marshal := fun b => .ok b
    Do := fun _ => (none, 200) }

/-- A history of 1001 calls of `updateMetrics`, with the durations 0, 1, ..., 1000. -/
def thousandAndOneCalls : List (Int × Bool) :=
  (List.range 1001).map (fun i => (Int.ofNat i, true))

theorem roundHalfEven_mono {x y : ℚ} (h : x ≤ y) : roundHalfEven x ≤ roundHalfEven y := by
  have hf : ⌊x⌋ ≤ ⌊y⌋ := Int.floor_mono h
  have hx1 := Int.floor_le x
  have hy1 := Int.floor_le y
  have hx2 := Int.lt_floor_add_one x
  have hy2 := Int.lt_floor_add_one y
  unfold roundHalfEven
  rcases hf.lt_or_eq with hlt | heq
  · have : ⌊x⌋ + 1 ≤ ⌊y⌋ := hlt
    split_ifs <;> omega
  · rw [heq] at hx1 hx2 ⊢
    split_ifs <;> first | omega | (exfalso; linarith)

theorem roundHalfEven_intCast (n : ℤ) : roundHalfEven (n : ℚ) = n := by
  simp [roundHalfEven]

theorem roundHalfEven_neg (x : ℚ) : roundHalfEven (-x) = - roundHalfEven x := by
  unfold roundHalfEven
  by_cases hx : (⌊x⌋ : ℚ) = x
  · have h1 : ⌊-x⌋ = -⌊x⌋ := by
      rw [← hx]; rw [← Int.cast_neg, Int.floor_intCast, Int.floor_intCast]
    rw [h1]
    have h2 : x - (⌊x⌋ : ℚ) = 0 := by linarith
    have h3 : -x - ((-⌊x⌋ : ℤ) : ℚ) = 0 := by push_cast; linarith
    rw [h2, h3]; norm_num
  · have hlt : (⌊x⌋ : ℚ) < x := lt_of_le_of_ne (Int.floor_le x) hx
    have h1 : ⌊-x⌋ = -⌊x⌋ - 1 := by
      rw [Int.floor_eq_iff]; push_cast
      have := Int.lt_floor_add_one x
      constructor <;> linarith
    rw [h1]; push_cast
    have := Int.lt_floor_add_one x
    split_ifs <;> first | omega | (exfalso; linarith)

theorem f64_neg (q : ℚ) : f64 (-q) = - f64 q := by
  unfold f64
  by_cases h : q = 0
  · simp [h]
  · have h' : -q ≠ 0 := neg_ne_zero.mpr h
    rw [if_neg h, if_neg h', abs_neg, neg_div, roundHalfEven_neg]
    push_cast; ring

theorem two_zpow_pos (e : ℤ) : (0 : ℚ) < (2 : ℚ) ^ e := zpow_pos (by norm_num) e

theorem log_spec {q : ℚ} (h : 0 < q) :
    (2 : ℚ) ^ Int.log 2 q ≤ q ∧ q < (2 : ℚ) ^ (Int.log 2 q + 1) := by
  have h1 := Int.zpow_log_le_self (R := ℚ) (b := 2) (by norm_num) h
  have h2 := Int.lt_zpow_succ_log_self (R := ℚ) (b := 2) (by norm_num) q
  exact ⟨by exact_mod_cast h1, by exact_mod_cast h2⟩

theorem scaled_bounds {q : ℚ} (h : 0 < q) :
    (2 : ℚ) ^ (52 : ℤ) ≤ q / (2 : ℚ) ^ (Int.log 2 q - 52) ∧
      q / (2 : ℚ) ^ (Int.log 2 q - 52) < (2 : ℚ) ^ (53 : ℤ) := by
  obtain ⟨h1, h2⟩ := log_spec h
  have hu := two_zpow_pos (Int.log 2 q - 52)
  constructor
  · rw [le_div_iff₀ hu, ← zpow_add₀ (by norm_num : (2 : ℚ) ≠ 0)]
    simpa using h1
  · rw [div_lt_iff₀ hu, ← zpow_add₀ (by norm_num : (2 : ℚ) ≠ 0)]
    have : (53 : ℤ) + (Int.log 2 q - 52) = Int.log 2 q + 1 := by ring
    rw [this]; exact h2

theorem f64_pos_bounds {q : ℚ} (h : 0 < q) :
    (2 : ℚ) ^ Int.log 2 q ≤ f64 q ∧ f64 q ≤ (2 : ℚ) ^ (Int.log 2 q + 1) := by
  obtain ⟨h1, h2⟩ := scaled_bounds h
  have hu := two_zpow_pos (Int.log 2 q - 52)
  have hq : |q| = q := abs_of_pos h
  have lo : ((2 ^ 52 : ℤ) : ℤ) ≤ roundHalfEven (q / (2 : ℚ) ^ (Int.log 2 q - 52)) := by
    have := roundHalfEven_mono (x := ((2 ^ 52 : ℤ) : ℚ)) (y := q / (2 : ℚ) ^ (Int.log 2 q - 52))
      (by push_cast; exact_mod_cast h1)
    rwa [roundHalfEven_intCast] at this
  have hi : roundHalfEven (q / (2 : ℚ) ^ (Int.log 2 q - 52)) ≤ ((2 ^ 53 : ℤ) : ℤ) := by
    have := roundHalfEven_mono (y := ((2 ^ 53 : ℤ) : ℚ)) (x := q / (2 : ℚ) ^ (Int.log 2 q - 52))
      (by push_cast; exact_mod_cast h2.le)
    rwa [roundHalfEven_intCast] at this
  unfold f64
  rw [if_neg h.ne', hq]
  have e1 : (2 : ℚ) ^ Int.log 2 q = (2 : ℚ) ^ (52 : ℤ) * (2 : ℚ) ^ (Int.log 2 q - 52) := by
    rw [← zpow_add₀ (by norm_num : (2 : ℚ) ≠ 0)]; congr 1; ring
  have e2 : (2 : ℚ) ^ (Int.log 2 q + 1) = (2 : ℚ) ^ (53 : ℤ) * (2 : ℚ) ^ (Int.log 2 q - 52) := by
    rw [← zpow_add₀ (by norm_num : (2 : ℚ) ≠ 0)]; congr 1; ring
  rw [e1, e2]
  constructor
  · apply mul_le_mul_of_nonneg_right _ hu.le
    have : ((2 ^ 52 : ℤ) : ℚ) ≤ (roundHalfEven (q / (2 : ℚ) ^ (Int.log 2 q - 52)) : ℚ) := by
      exact_mod_cast lo
    norm_num at this ⊢
    exact this
  · apply mul_le_mul_of_nonneg_right _ hu.le
    have : (roundHalfEven (q / (2 : ℚ) ^ (Int.log 2 q - 52)) : ℚ) ≤ ((2 ^ 53 : ℤ) : ℚ) := by
      exact_mod_cast hi
    norm_num at this ⊢
    exact this

theorem f64_zero : f64 0 = 0 := by simp [f64]

theorem f64_nonneg {q : ℚ} (h : 0 ≤ q) : 0 ≤ f64 q := by
  rcases h.eq_or_lt with h0 | hpos
  · rw [← h0, f64_zero]
  · exact le_trans (two_zpow_pos _).le (f64_pos_bounds hpos).1

theorem f64_mono_nonneg {a b : ℚ} (ha : 0 ≤ a) (hab : a ≤ b) : f64 a ≤ f64 b := by
  rcases ha.eq_or_lt with h0 | hpos
  · rw [← h0, f64_zero]; exact f64_nonneg (le_trans ha hab)
  · have hb : 0 < b := lt_of_lt_of_le hpos hab
    have hl : Int.log 2 a ≤ Int.log 2 b := Int.log_mono_right hpos hab
    rcases hl.lt_or_eq with hlt | heq
    · calc f64 a ≤ (2 : ℚ) ^ (Int.log 2 a + 1) := (f64_pos_bounds hpos).2
        _ ≤ (2 : ℚ) ^ Int.log 2 b := zpow_le_zpow_right₀ (by norm_num) (by omega)
        _ ≤ f64 b := (f64_pos_bounds hb).1
    · unfold f64
      rw [if_neg hpos.ne', if_neg hb.ne', abs_of_pos hpos, abs_of_pos hb, heq]
      have hu := two_zpow_pos (Int.log 2 b - 52)
      apply mul_le_mul_of_nonneg_right _ hu.le
      have := roundHalfEven_mono (div_le_div_of_nonneg_right hab hu.le)
      exact_mod_cast this

theorem f64_mono {a b : ℚ} (hab : a ≤ b) : f64 a ≤ f64 b := by
  rcases le_total 0 a with ha | ha
  · exact f64_mono_nonneg ha hab
  · rcases le_total 0 b with hb | hb
    · have h1 : f64 a ≤ 0 := by
        have := f64_nonneg (neg_nonneg.mpr ha); rw [f64_neg] at this; linarith
      exact le_trans h1 (f64_nonneg hb)
    · have := f64_mono_nonneg (neg_nonneg.mpr hb) (neg_le_neg hab)
      rw [f64_neg, f64_neg] at this; linarith

theorem f64_of_pos_lt {m e : ℤ} (hm0 : 0 < m) (hm : m < 2 ^ 53) :
    f64 (m * (2 : ℚ) ^ e) = m * (2 : ℚ) ^ e := by
  have hpe := two_zpow_pos e
  have hmq : (0 : ℚ) < m := by exact_mod_cast hm0
  have hq : (0 : ℚ) < m * (2 : ℚ) ^ e := mul_pos hmq hpe
  have hlog : Int.log 2 ((m : ℚ) * (2 : ℚ) ^ e) < 53 + e := by
    have := (Int.lt_zpow_iff_log_lt (R := ℚ) (b := 2) (by norm_num) (x := 53 + e) hq).1 (by
      push_cast
      rw [zpow_add₀ (by norm_num : (2 : ℚ) ≠ 0)]
      apply mul_lt_mul_of_pos_right _ hpe
      have : (m : ℚ) < ((2 ^ 53 : ℤ) : ℚ) := by exact_mod_cast hm
      norm_num at this ⊢
      exact this)
    exact this
  obtain ⟨k, hk⟩ : ∃ k : ℕ, e - (Int.log 2 ((m : ℚ) * (2 : ℚ) ^ e) - 52) = k :=
    ⟨(e - (Int.log 2 ((m : ℚ) * (2 : ℚ) ^ e) - 52)).toNat, by rw [Int.toNat_of_nonneg]; omega⟩
  unfold f64
  rw [if_neg hq.ne', abs_of_pos hq]
  have hdiv : (m : ℚ) * (2 : ℚ) ^ e / (2 : ℚ) ^ (Int.log 2 ((m : ℚ) * (2 : ℚ) ^ e) - 52)
      = ((m * 2 ^ k : ℤ) : ℚ) := by
    rw [mul_div_assoc, ← zpow_sub₀ (by norm_num : (2 : ℚ) ≠ 0), hk]
    push_cast; rw [zpow_natCast]
  rw [hdiv, roundHalfEven_intCast, ← hdiv]
  field_simp

theorem f64_two_zpow (e : ℤ) : f64 ((2 : ℚ) ^ e) = (2 : ℚ) ^ e := by
  have := f64_of_pos_lt (m := 1) (e := e) (by norm_num) (by norm_num)
  simpa using this

theorem f64_of_representable {q : ℚ} (h : Representable q) : f64 q = q := by
  obtain ⟨m, e, hm, rfl⟩ := h
  have key : ∀ m : ℤ, 0 < m → m ≤ 2 ^ 53 → f64 (m * (2 : ℚ) ^ e) = m * (2 : ℚ) ^ e := by
    intro m h0 h1
    rcases h1.lt_or_eq with hlt | heq
    · exact f64_of_pos_lt h0 hlt
    · have : (m : ℚ) * (2 : ℚ) ^ e = (2 : ℚ) ^ (53 + e) := by
        rw [heq, zpow_add₀ (by norm_num : (2 : ℚ) ≠ 0)]; norm_num
      rw [this, f64_two_zpow]
  rcases lt_trichotomy m 0 with hneg | hz | hpos
  · have := key (-m) (by omega) (by rw [abs_of_neg hneg] at hm; exact hm)
    have e1 : ((-m : ℤ) : ℚ) * (2 : ℚ) ^ e = -((m : ℚ) * (2 : ℚ) ^ e) := by push_cast; ring
    rw [e1, f64_neg] at this
    linarith
  · simp [hz, f64_zero]
  · exact key m hpos (by rw [abs_of_pos hpos] at hm; exact hm)

theorem f64_representable (q : ℚ) : Representable (f64 q) := by
  have key : ∀ q : ℚ, 0 < q → Representable (f64 q) := by
    intro q h
    obtain ⟨h1, h2⟩ := scaled_bounds h
    refine ⟨roundHalfEven (q / (2 : ℚ) ^ (Int.log 2 q - 52)), Int.log 2 q - 52, ?_, ?_⟩
    · have lo := roundHalfEven_mono (x := ((0 : ℤ) : ℚ)) (y := q / (2 : ℚ) ^ (Int.log 2 q - 52))
        (by push_cast; exact le_trans (two_zpow_pos 52).le h1)
      have hi := roundHalfEven_mono (y := ((2 ^ 53 : ℤ) : ℚ))
        (x := q / (2 : ℚ) ^ (Int.log 2 q - 52)) (by push_cast; exact_mod_cast h2.le)
      rw [roundHalfEven_intCast] at lo hi
      rw [abs_of_nonneg lo]; exact hi
    · unfold f64; rw [if_neg h.ne', abs_of_pos h]
  rcases lt_trichotomy q 0 with hneg | hz | hpos
  · obtain ⟨m, e, hm, he⟩ := key (-q) (by linarith)
    refine ⟨-m, e, by rwa [abs_neg], ?_⟩
    rw [f64_neg] at he
    push_cast; linarith
  · exact ⟨0, 0, by norm_num, by simp [hz, f64_zero]⟩
  · exact key q hpos

theorem f64_idem (q : ℚ) : f64 (f64 q) = f64 q := f64_of_representable (f64_representable q)

theorem f64_intCast {n : ℤ} (h : |n| ≤ 2 ^ 53) : f64 (n : ℚ) = n :=
  f64_of_representable ⟨n, 0, h, by simp⟩

/-! ## Lemmas on the metrics window -/

theorem wrap64_of_range {x : Int} (h1 : -2 ^ 63 ≤ x) (h2 : x < 2 ^ 63) : wrap64 x = x := by
  unfold wrap64; omega

theorem wrap64_add_one (x : Int) : wrap64 (wrap64 x + 1) = wrap64 (x + 1) := by
  unfold wrap64; omega

theorem wrap64_add_wrap64 (x y : Int) : wrap64 (wrap64 x + wrap64 y) = wrap64 (x + y) := by
  unfold wrap64; omega

theorem wrap64_succ_ne (x : Int) : wrap64 (wrap64 x + 1) ≠ wrap64 x := by
  unfold wrap64; omega

theorem truncToInt_bounds {q : ℚ} {n : Int} (h0 : 0 ≤ q) (h1 : q ≤ n) :
    0 ≤ truncToInt q ∧ truncToInt q ≤ n := by
  unfold truncToInt
  rw [if_pos h0]
  exact ⟨Int.floor_nonneg.mpr h0, Int.floor_le_iff.mpr (by linarith)⟩

theorem f64_one : f64 1 = 1 := by
  have := f64_two_zpow 0
  simpa using this

theorem f64_unit {c : ℚ} (h0 : 0 ≤ c) (h1 : c ≤ 1) : 0 ≤ f64 c ∧ f64 c ≤ 1 :=
  ⟨f64_nonneg h0, by have := f64_mono h1; rwa [f64_one] at this⟩

theorem percentileIndex_bounds {len : Nat} {c : ℚ} (hlen : 0 < len) (hlen2 : len ≤ 2 ^ 53)
    (h0 : 0 ≤ c) (h1 : c ≤ 1) :
    0 ≤ percentileIndex len c ∧ percentileIndex len c < len := by
  unfold percentileIndex
  have hn : |((len : Int) - 1 : Int)| ≤ 2 ^ 53 := by
    rw [abs_of_nonneg (by omega)]
    have : (len : Int) ≤ 2 ^ 53 := by exact_mod_cast hlen2
    omega
  rw [f64_intCast hn]
  have hn0 : (0 : ℚ) ≤ (((len : Int) - 1 : Int) : ℚ) := by
    have : (0 : Int) ≤ (len : Int) - 1 := by omega
    exact_mod_cast this
  have hprod0 : 0 ≤ (((len : Int) - 1 : Int) : ℚ) * c := mul_nonneg hn0 h0
  have hprod1 : (((len : Int) - 1 : Int) : ℚ) * c ≤ (((len : Int) - 1 : Int) : ℚ) :=
    mul_le_of_le_one_right hn0 h1
  have hf1 : f64 ((((len : Int) - 1 : Int) : ℚ) * c) ≤ (((len : Int) - 1 : Int) : ℚ) := by
    have := f64_mono hprod1
    rwa [f64_intCast hn] at this
  have := truncToInt_bounds (f64_nonneg hprod0) hf1
  omega

theorem calculatePercentile_spec (p : Pool) {c : ℚ} (hlen : 0 < p.latencies.length)
    (hlen2 : p.latencies.length ≤ 2 ^ 53) (h0 : 0 ≤ c) (h1 : c ≤ 1) :
    ∃ v, calculatePercentile p c = .ok v ∧
      p.latencies[(percentileIndex p.latencies.length c).toNat]? = some v := by
  obtain ⟨hi0, hi1⟩ := percentileIndex_bounds hlen hlen2 h0 h1
  have hlt : (percentileIndex p.latencies.length c).toNat < p.latencies.length := by omega
  refine ⟨p.latencies[(percentileIndex p.latencies.length c).toNat], ?_, ?_⟩
  · unfold calculatePercentile
    rw [if_neg (by omega)]
    simp only
    rw [if_neg (by omega), List.getElem?_eq_getElem hlt]
  · exact List.getElem?_eq_getElem hlt

theorem half_unit : (0 : ℚ) ≤ f64 (1 / 2) ∧ f64 (1 / 2) ≤ 1 := f64_unit (by norm_num) (by norm_num)

theorem p95_unit : (0 : ℚ) ≤ f64 (95 / 100) ∧ f64 (95 / 100) ≤ 1 :=
  f64_unit (by norm_num) (by norm_num)

theorem p99_unit : (0 : ℚ) ≤ f64 (99 / 100) ∧ f64 (99 / 100) ≤ 1 :=
  f64_unit (by norm_num) (by norm_num)

theorem updateMetrics_spec (p : Pool) (d : Int) (s : Bool) (h : p.latencies.length ≤ 1000) :
    ∃ q, updateMetrics p d s = .ok q ∧
      q.latencies = (if (p.latencies ++ [d]).length > 1000 then (p.latencies ++ [d]).drop 1
        else p.latencies ++ [d]) ∧
      q.metrics.TotalRequests = wrap64 (p.metrics.TotalRequests + 1) ∧
      q.metrics.SuccessfulRequests = (if s then wrap64 (p.metrics.SuccessfulRequests + 1)
        else p.metrics.SuccessfulRequests) ∧
      q.metrics.FailedRequests = (if s then p.metrics.FailedRequests
        else wrap64 (p.metrics.FailedRequests + 1)) ∧
      q.metrics.LatencyStats.Min =
        (if p.metrics.LatencyStats.Min = 0 ∨ d < p.metrics.LatencyStats.Min then d
          else p.metrics.LatencyStats.Min) ∧
      q.metrics.LatencyStats.Max =
        (if d > p.metrics.LatencyStats.Max then d else p.metrics.LatencyStats.Max) ∧
      q.latencies[(percentileIndex q.latencies.length (f64 (1 / 2))).toNat]?
        = some q.metrics.LatencyStats.P50 ∧
      q.latencies[(percentileIndex q.latencies.length (f64 (95 / 100))).toNat]?
        = some q.metrics.LatencyStats.P95 ∧
      q.latencies[(percentileIndex q.latencies.length (f64 (99 / 100))).toNat]?
        = some q.metrics.LatencyStats.P99 ∧
      q.config = p.config ∧ q.rateLimiter = p.rateLimiter ∧ q.workers = p.workers := by
  have hW : 0 < (if (p.latencies ++ [d]).length > 1000 then (p.latencies ++ [d]).drop 1
        else p.latencies ++ [d]).length ∧
      (if (p.latencies ++ [d]).length > 1000 then (p.latencies ++ [d]).drop 1
        else p.latencies ++ [d]).length ≤ 1000 := by
    split_ifs with hc
    · simp only [List.length_drop, List.length_append, List.length_singleton] at hc ⊢
      omega
    · simp only [List.length_append, List.length_singleton] at hc ⊢
      omega
  unfold updateMetrics
  simp only
  generalize hWdef : (if (p.latencies ++ [d]).length > 1000 then (p.latencies ++ [d]).drop 1
        else p.latencies ++ [d]) = W at hW
  have hne : ((W.length : Nat) : Int) ≠ 0 := by omega
  simp only [goDiv, if_neg hne]
  rw [if_pos hW.1]
  generalize hp1 : ({ p with
      latencies := W
      metrics := { TotalRequests := wrap64 (p.metrics.TotalRequests + 1),
                   SuccessfulRequests := (if s = true then wrap64 (p.metrics.SuccessfulRequests + 1)
                      else p.metrics.SuccessfulRequests),
                   FailedRequests := (if s = true then p.metrics.FailedRequests
                      else wrap64 (p.metrics.FailedRequests + 1)),
                   LatencyStats := { p.metrics.LatencyStats with
                     Min := (if p.metrics.LatencyStats.Min = 0 ∨ d < p.metrics.LatencyStats.Min
                        then d else p.metrics.LatencyStats.Min),
                     Max := (if d > p.metrics.LatencyStats.Max
                        then d else p.metrics.LatencyStats.Max),
                     Mean := wrap64 ((List.foldl (fun acc lat => wrap64 (acc + lat)) 0 W).tdiv
                        W.length) } } } : Pool) = p1
  have hl1 : p1.latencies = W := by rw [← hp1]
  have hlen1 : 0 < p1.latencies.length := by rw [hl1]; exact hW.1
  have hlen2 : p1.latencies.length ≤ 2 ^ 53 := by rw [hl1]; omega
  obtain ⟨v50, hv50, hg50⟩ := calculatePercentile_spec p1 hlen1 hlen2 half_unit.1 half_unit.2
  obtain ⟨v95, hv95, hg95⟩ := calculatePercentile_spec p1 hlen1 hlen2 p95_unit.1 p95_unit.2
  obtain ⟨v99, hv99, hg99⟩ := calculatePercentile_spec p1 hlen1 hlen2 p99_unit.1 p99_unit.2
  rw [hv50, hv95, hv99]
  refine ⟨_, rfl, ?_⟩
  simp only
  rw [hl1] at hg50 hg95 hg99
  subst hp1
  simp only at hl1 ⊢
  exact ⟨trivial, trivial, trivial, trivial, trivial, trivial, hg50, hg95, hg99,
    trivial, trivial, trivial⟩

/-! ## Runs of `updateMetrics` from a fresh pool -/

theorem NewPool_fresh {workers : Int} {cfg : Config} {now : Int} {p0 : Pool}
    (h : NewPool workers cfg now = .ok p0) : p0.latencies = [] ∧ p0.metrics = {} := by
  unfold NewPool at h
  split_ifs at h
  split at h
  · cases h
  · cases h; exact ⟨rfl, rfl⟩

theorem NewPool_example : NewPool 5 exampleConfig 0 = .ok examplePool := by
  rfl

theorem slide_eq_drop (l : List Int) (d : Int) (h : l.length ≤ 1000) :
    (if (l ++ [d]).length > 1000 then (l ++ [d]).drop 1 else l ++ [d])
      = (l ++ [d]).drop ((l ++ [d]).length - 1000) := by
  have hl : (l ++ [d]).length = l.length + 1 := by simp
  split_ifs with hc
  · have : (l ++ [d]).length - 1000 = 1 := by omega
    rw [this]
  · have : (l ++ [d]).length - 1000 = 0 := by omega
    rw [this, List.drop_zero]

theorem wrap64_range (x : Int) : -2 ^ 63 ≤ wrap64 x ∧ wrap64 x < 2 ^ 63 := by
  unfold wrap64; omega

theorem recordAll_spec (calls : List (Int × Bool)) :
    ∀ p : Pool, p.latencies.length ≤ 1000 →
      wrap64 p.metrics.TotalRequests = p.metrics.TotalRequests →
      wrap64 p.metrics.SuccessfulRequests = p.metrics.SuccessfulRequests →
      wrap64 p.metrics.FailedRequests = p.metrics.FailedRequests →
      ∃ q, recordAll p calls = .ok q ∧
        q.latencies = (p.latencies ++ calls.map Prod.fst).drop
          ((p.latencies ++ calls.map Prod.fst).length - 1000) ∧
        q.metrics.TotalRequests = wrap64 (p.metrics.TotalRequests + calls.length) ∧
        q.metrics.SuccessfulRequests = wrap64 (p.metrics.SuccessfulRequests
          + (calls.filter (fun c => c.2)).length) ∧
        q.metrics.FailedRequests = wrap64 (p.metrics.FailedRequests
          + (calls.filter (fun c => !c.2)).length) := by
  induction calls with
  | nil =>
    intro p hp ht hs hf
    refine ⟨p, rfl, ?_, ?_, ?_, ?_⟩
    · have : (p.latencies ++ List.map Prod.fst ([] : List (Int × Bool))).length - 1000 = 0 := by
        simp; omega
      rw [this]; simp
    · simpa using ht.symm
    · simpa using hs.symm
    · simpa using hf.symm
  | cons c rest ih =>
    intro p hp ht0 hs0 hf0
    obtain ⟨p1, h1, hl, ht, hs, hf, -⟩ := updateMetrics_spec p c.1 c.2 hp
    rw [slide_eq_drop _ _ hp] at hl
    have hp1 : p1.latencies.length ≤ 1000 := by
      rw [hl]; simp only [List.length_drop, List.length_append, List.length_singleton]; omega
    have ht1 : wrap64 p1.metrics.TotalRequests = p1.metrics.TotalRequests := by
      rw [ht]; unfold wrap64; omega
    have hs1 : wrap64 p1.metrics.SuccessfulRequests = p1.metrics.SuccessfulRequests := by
      rw [hs]; split_ifs
      · unfold wrap64; omega
      · exact hs0
    have hf1 : wrap64 p1.metrics.FailedRequests = p1.metrics.FailedRequests := by
      rw [hf]; split_ifs
      · exact hf0
      · unfold wrap64; omega
    obtain ⟨q, hq, hql, hqt, hqs, hqf⟩ := ih p1 hp1 ht1 hs1 hf1
    refine ⟨q, ?_, ?_, ?_, ?_, ?_⟩
    · simp only [recordAll, h1]; exact hq
    · rw [hql, hl]
      have hX : p.latencies ++ List.map Prod.fst (c :: rest)
          = (p.latencies ++ [c.1]) ++ List.map Prod.fst rest := by simp
      have hle : (p.latencies ++ [c.1]).length - 1000 ≤ (p.latencies ++ [c.1]).length := by omega
      rw [hX, ← List.drop_append_of_le_length hle, List.drop_drop]
      have e : ∀ (a b : Nat) (l : List Int), a = b → l.drop a = l.drop b := by
        intro a b l h; rw [h]
      apply e
      have h3 : (p.latencies ++ [c.1]).length = p.latencies.length + 1 := by simp
      have h4 : ((p.latencies ++ [c.1]) ++ List.map Prod.fst rest).length
          = p.latencies.length + 1 + rest.length := by simp; omega
      rw [List.length_drop, h4, h3]
      omega
    · rw [hqt, ht]; simp only [List.length_cons, wrap64]; push_cast; omega
    · rw [hqs, hs]
      cases hc : c.2 <;> simp only [hc, List.filter_cons, wrap64, List.length_cons] <;>
        (simp; try omega)
    · rw [hqf, hf]
      cases hc : c.2 <;> simp only [hc, List.filter_cons, wrap64, List.length_cons] <;>
        (simp; try omega)

theorem filter_length_split (calls : List (Int × Bool)) :
    (calls.filter (fun c => c.2)).length + (calls.filter (fun c => !c.2)).length
      = calls.length := by
  induction calls with
  | nil => rfl
  | cons c rest ih =>
    cases hc : c.2 <;> simp only [List.filter_cons, hc, List.length_cons] <;> (simp; try omega)

theorem counter_step_left (a b : Int) :
    wrap64 (wrap64 (a + b) + 1) = wrap64 (wrap64 (a + 1) + b) := by
  unfold wrap64; omega

theorem counter_step_right (a b : Int) :
    wrap64 (wrap64 (a + b) + 1) = wrap64 (a + wrap64 (b + 1)) := by
  unfold wrap64; omega

theorem counts_exact (n ns nf : ℕ) (hsum : ns + nf = n) (hn : (n : Int) + 1 < 2 ^ 63) :
    wrap64 n = n ∧ wrap64 ns = ns ∧ wrap64 nf = nf ∧
      wrap64 ((n : Int) + 1) = n + 1 ∧ wrap64 ((ns : Int) + 1) = ns + 1 ∧
      wrap64 ((nf : Int) + 1) = nf + 1 := by
  unfold wrap64
  refine ⟨?_, ?_, ?_, ?_, ?_, ?_⟩ <;> omega

/-! ## Claims on the metrics aggregator -/

/-- C1: starting from a freshly constructed pool, after any history of `updateMetrics`
calls one more call, with any duration and any success flag, returns, and afterwards
`TotalRequests == SuccessfulRequests + FailedRequests` in int64 arithmetic; the call moves
`TotalRequests` to its int64 successor and exactly one of `SuccessfulRequests` and
`FailedRequests` to its successor, leaving the other unchanged.  As long as fewer than
`2 ^ 63` calls were made, no counter has wrapped: the equation and the increments by
exactly 1 hold over the integers. -/
theorem updateMetrics_counters (workers : Int) (cfg : Config) (now : Int) (p0 : Pool)
    (h : NewPool workers cfg now = .ok p0) (calls : List (Int × Bool)) (d : Int) (s : Bool) :
    ∃ p q, recordAll p0 calls = .ok p ∧ updateMetrics p d s = .ok q ∧
      q.metrics.TotalRequests
        = wrap64 (q.metrics.SuccessfulRequests + q.metrics.FailedRequests) ∧
      q.metrics.TotalRequests = wrap64 (p.metrics.TotalRequests + 1) ∧
      q.metrics.TotalRequests ≠ p.metrics.TotalRequests ∧
      (s = true → q.metrics.SuccessfulRequests = wrap64 (p.metrics.SuccessfulRequests + 1) ∧
        q.metrics.SuccessfulRequests ≠ p.metrics.SuccessfulRequests ∧
        q.metrics.FailedRequests = p.metrics.FailedRequests) ∧
      (s = false → q.metrics.FailedRequests = wrap64 (p.metrics.FailedRequests + 1) ∧
        q.metrics.FailedRequests ≠ p.metrics.FailedRequests ∧
        q.metrics.SuccessfulRequests = p.metrics.SuccessfulRequests) ∧
      ((calls.length : Int) + 1 < 2 ^ 63 →
        q.metrics.TotalRequests = q.metrics.SuccessfulRequests + q.metrics.FailedRequests ∧
        q.metrics.TotalRequests = p.metrics.TotalRequests + 1 ∧
        (s = true → q.metrics.SuccessfulRequests = p.metrics.SuccessfulRequests + 1) ∧
        (s = false → q.metrics.FailedRequests = p.metrics.FailedRequests + 1)) := by
  obtain ⟨hl0, hm0⟩ := NewPool_fresh h
  have hz : wrap64 0 = 0 := by unfold wrap64; omega
  obtain ⟨p, hp, hpl, hpt, hps, hpf⟩ := recordAll_spec calls p0 (by simp [hl0])
    (by rw [hm0]; exact hz) (by rw [hm0]; exact hz) (by rw [hm0]; exact hz)
  have hplen : p.latencies.length ≤ 1000 := by
    rw [hpl]; simp only [List.length_drop]; omega
  obtain ⟨q, hq, -, hqt, hqs, hqf, -⟩ := updateMetrics_spec p d s hplen
  have hsplit := filter_length_split calls
  rw [hm0] at hpt hps hpf
  simp only [zero_add] at hpt hps hpf
  generalize (calls.filter (fun c => c.2)).length = ns at hsplit hps
  generalize (calls.filter (fun c => !c.2)).length = nf at hsplit hpf
  generalize calls.length = n at hsplit hpt
  have hsum : (ns : Int) + nf = n := by exact_mod_cast hsplit
  have hinv : p.metrics.TotalRequests
      = wrap64 (p.metrics.SuccessfulRequests + p.metrics.FailedRequests) := by
    rw [hpt, hps, hpf, wrap64_add_wrap64, hsum]
  refine ⟨p, q, hp, hq, ?_, hqt, ?_, ?_, ?_, ?_⟩
  · rw [hqt, hqs, hqf, hinv]
    cases s
    · simp only [Bool.false_eq_true, if_false]
      exact counter_step_right _ _
    · simp only [if_true]
      exact counter_step_left _ _
  · rw [hqt, hpt]; exact wrap64_succ_ne _
  · intro hs
    rw [hs] at hqs hqf
    simp only [if_true] at hqs hqf
    refine ⟨hqs, ?_, hqf⟩
    rw [hqs, hps]; exact wrap64_succ_ne _
  · intro hs
    rw [hs] at hqs hqf
    simp only [Bool.false_eq_true, if_false] at hqs hqf
    refine ⟨hqf, ?_, hqs⟩
    rw [hqf, hpf]; exact wrap64_succ_ne _
  · intro hn
    obtain ⟨e1, e2, e3, e4, e5, e6⟩ := counts_exact n ns nf hsplit hn
    have eT : p.metrics.TotalRequests = n := by rw [hpt, e1]
    have eS : p.metrics.SuccessfulRequests = ns := by rw [hps, e2]
    have eF : p.metrics.FailedRequests = nf := by rw [hpf, e3]
    have eT1 : q.metrics.TotalRequests = n + 1 := by rw [hqt, eT, e4]
    cases s
    · simp only [Bool.false_eq_true, if_false] at hqs hqf
      have eF1 : q.metrics.FailedRequests = nf + 1 := by rw [hqf, eF, e6]
      rw [eT1, eF1, hqs, eS, eT, eF]
      refine ⟨by rw [← hsum]; ring, rfl, fun hc => (by cases hc), fun _ => rfl⟩
    · simp only [if_true] at hqs hqf
      have eS1 : q.metrics.SuccessfulRequests = ns + 1 := by rw [hqs, eS, e5]
      rw [eT1, eS1, hqf, eS, eT, eF]
      refine ⟨by rw [← hsum]; ring, rfl, fun _ => rfl, fun hc => (by cases hc)⟩
/-- C1, instantiated: the pool of the ramp-up test configuration, two earlier calls (one
success, one failure), then a successful one; no counter has wrapped. -/
theorem updateMetrics_counters_witness :
    NewPool 5 exampleConfig 0 = .ok examplePool ∧
    (([(5, true), (7, false)] : List (Int × Bool)).length : Int) + 1 < 2 ^ 63 ∧
    ∃ p q, recordAll examplePool [(5, true), (7, false)] = .ok p ∧
      updateMetrics p 3 true = .ok q ∧
      q.metrics.TotalRequests = q.metrics.SuccessfulRequests + q.metrics.FailedRequests ∧
      q.metrics.TotalRequests = p.metrics.TotalRequests + 1 ∧
      q.metrics.SuccessfulRequests = p.metrics.SuccessfulRequests + 1 ∧
      q.metrics.FailedRequests = p.metrics.FailedRequests := by
  obtain ⟨p, q, hp, hq, -, -, -, hs, -, hex⟩ :=
    updateMetrics_counters 5 exampleConfig 0 examplePool NewPool_example
      [(5, true), (7, false)] 3 true
  obtain ⟨e1, e2, e3, -⟩ := hex (by decide)
  exact ⟨NewPool_example, by decide, p, q, hp, hq, e1, e2, e3 rfl, (hs rfl).2.2⟩

/-- C4: starting from a freshly constructed pool, after `k` calls of `updateMetrics` the
latency window holds at most 1000 samples; it is exactly the last `min k 1000` recorded
durations, in insertion order.  After 1001 calls the window is the recorded sequence without
its first sample, and its last element is the 1001st sample. -/
theorem latency_window (workers : Int) (cfg : Config) (now : Int) (p0 : Pool)
    (h : NewPool workers cfg now = .ok p0) (calls : List (Int × Bool)) :
    ∃ p, recordAll p0 calls = .ok p ∧
      p.latencies.length ≤ 1000 ∧
      p.latencies.length = min calls.length 1000 ∧
      p.latencies = (calls.map Prod.fst).drop (calls.length - min calls.length 1000) ∧
      (calls.length = 1001 →
        p.latencies = (calls.map Prod.fst).tail ∧
        p.latencies.getLast? = (calls.map Prod.fst).getLast?) := by
  obtain ⟨hl0, hm0⟩ := NewPool_fresh h
  have hz : wrap64 0 = 0 := by unfold wrap64; omega
  obtain ⟨p, hp, hpl, -⟩ := recordAll_spec calls p0 (by simp [hl0])
    (by rw [hm0]; exact hz) (by rw [hm0]; exact hz) (by rw [hm0]; exact hz)
  rw [hl0] at hpl
  simp only [List.nil_append, List.length_map] at hpl
  have e : calls.length - min calls.length 1000 = calls.length - 1000 := by omega
  refine ⟨p, hp, ?_, ?_, ?_, ?_⟩
  · rw [hpl]; simp only [List.length_drop, List.length_map]; omega
  · rw [hpl]; simp only [List.length_drop, List.length_map]; omega
  · rw [hpl, e]
  · intro hk
    have h1 : calls.length - 1000 = 1 := by omega
    rw [hpl, h1]
    refine ⟨by simp, ?_⟩
    rcases calls with _ | ⟨c, rest⟩
    · simp at hk
    · rcases rest with _ | ⟨c2, rest2⟩
      · simp at hk
      · simp [List.getLast?_cons_cons]

/-- C4, instantiated at a run of 1001 calls with the durations 0, 1, ..., 1000: the window
holds 1000 samples, the recorded sequence without its first sample. -/
theorem latency_window_witness :
    NewPool 5 exampleConfig 0 = .ok examplePool ∧
    thousandAndOneCalls.length = 1001 ∧
    ∃ p, recordAll examplePool thousandAndOneCalls = .ok p ∧
      p.latencies.length = 1000 ∧
      p.latencies = (thousandAndOneCalls.map Prod.fst).tail ∧
      p.latencies.getLast? = (thousandAndOneCalls.map Prod.fst).getLast? := by
  have hlen : thousandAndOneCalls.length = 1001 := by
    unfold thousandAndOneCalls
    rw [List.length_map, List.length_range]
  obtain ⟨p, hp, -, hl, -, h1001⟩ :=
    latency_window 5 exampleConfig 0 examplePool NewPool_example thousandAndOneCalls
  obtain ⟨ht, hlast⟩ := h1001 hlen
  refine ⟨NewPool_example, hlen, p, hp, ?_, ht, hlast⟩
  rw [hl, hlen]; rfl

/-! ## Percentiles: the window is indexed in insertion order -/

theorem recordAll_snoc (calls : List (Int × Bool)) (c : Int × Bool) :
    ∀ p : Pool, recordAll p (calls ++ [c]) =
      match recordAll p calls with
      | .error e => .error e
      | .ok p1 => updateMetrics p1 c.1 c.2 := by
  induction calls with
  | nil =>
    intro p
    simp only [List.nil_append, recordAll]
    cases updateMetrics p c.1 c.2 <;> rfl
  | cons c0 rest ih =>
    intro p
    simp only [List.cons_append, recordAll]
    cases updateMetrics p c0.1 c0.2 with
    | error e => rfl
    | ok p1 => exact ih p1

theorem f64_dyadic (m : Int) (k : Nat) (hm : |m| ≤ 2 ^ 53) :
    f64 ((m : ℚ) / 2 ^ k) = (m : ℚ) / 2 ^ k :=
  f64_of_representable ⟨m, -(k : Int), hm, by rw [zpow_neg, zpow_natCast]; rfl⟩

theorem truncToInt_eq {q : ℚ} {n : Int} (h0 : (n : ℚ) ≤ q) (h1 : q < n + 1) (hn : 0 ≤ n) :
    truncToInt q = n := by
  unfold truncToInt
  have hq : (0 : ℚ) ≤ q := le_trans (by exact_mod_cast hn) h0
  rw [if_pos hq]
  exact Int.floor_eq_iff.mpr ⟨h0, h1⟩

theorem percentileIndex_eq {len : Nat} {c l u : ℚ} {n : Int} {a b : Int} {j k : Nat}
    (hlen : 0 < len) (hlen2 : len ≤ 2 ^ 53) (hlo : l ≤ c) (hhi : c ≤ u)
    (ha : (((len : Int) - 1 : Int) : ℚ) * l = (a : ℚ) / 2 ^ j) (ha2 : |a| ≤ 2 ^ 53)
    (hb : (((len : Int) - 1 : Int) : ℚ) * u = (b : ℚ) / 2 ^ k) (hb2 : |b| ≤ 2 ^ 53)
    (hn : 0 ≤ n) (h0 : (n : ℚ) ≤ (a : ℚ) / 2 ^ j) (h1 : (b : ℚ) / 2 ^ k < n + 1) :
    percentileIndex len c = n := by
  unfold percentileIndex
  have hN : |((len : Int) - 1 : Int)| ≤ 2 ^ 53 := by
    rw [abs_of_nonneg (by omega)]
    have : (len : Int) ≤ 2 ^ 53 := by exact_mod_cast hlen2
    omega
  rw [f64_intCast hN]
  have hn0 : (0 : ℚ) ≤ (((len : Int) - 1 : Int) : ℚ) := by
    have : (0 : Int) ≤ (len : Int) - 1 := by omega
    exact_mod_cast this
  apply truncToInt_eq _ _ hn
  · calc (n : ℚ) ≤ (a : ℚ) / 2 ^ j := h0
      _ = f64 ((a : ℚ) / 2 ^ j) := (f64_dyadic a j ha2).symm
      _ ≤ f64 ((((len : Int) - 1 : Int) : ℚ) * c) := by
        apply f64_mono; rw [← ha]; exact mul_le_mul_of_nonneg_left hlo hn0
  · have h2 : f64 ((((len : Int) - 1 : Int) : ℚ) * c) ≤ f64 ((b : ℚ) / 2 ^ k) := by
      apply f64_mono; rw [← hb]; exact mul_le_mul_of_nonneg_left hhi hn0
    rw [f64_dyadic b k hb2] at h2
    exact lt_of_le_of_lt h2 h1

theorem f64_between {x lo hi : ℚ} {a b : Int} {j k : Nat} (hlo : lo ≤ x) (hhi : x ≤ hi)
    (ha : lo = (a : ℚ) / 2 ^ j) (ha2 : |a| ≤ 2 ^ 53)
    (hb : hi = (b : ℚ) / 2 ^ k) (hb2 : |b| ≤ 2 ^ 53) : lo ≤ f64 x ∧ f64 x ≤ hi := by
  constructor
  · have := f64_mono hlo
    rwa [ha, f64_dyadic a j ha2, ← ha] at this
  · have := f64_mono hhi
    rwa [hb, f64_dyadic b k hb2, ← hb] at this

theorem f64_half : f64 (1 / 2) = 1 / 2 := by
  have := f64_dyadic 1 1 (by norm_num)
  norm_num at this ⊢
  exact this

theorem p95_between : (3 / 4 : ℚ) ≤ f64 (95 / 100) ∧ f64 (95 / 100) ≤ 31 / 32 :=
  f64_between (a := 3) (j := 2) (b := 31) (k := 5) (by norm_num) (by norm_num)
    (by norm_num) (by norm_num) (by norm_num) (by norm_num)

theorem p99_between : (3 / 4 : ℚ) ≤ f64 (99 / 100) ∧ f64 (99 / 100) ≤ 127 / 128 :=
  f64_between (a := 3) (j := 2) (b := 127) (k := 7) (by norm_num) (by norm_num)
    (by norm_num) (by norm_num) (by norm_num) (by norm_num)

theorem percentileIndex_two_50 : percentileIndex 2 (f64 (1 / 2)) = 0 := by
  rw [f64_half]
  exact percentileIndex_eq (l := 1 / 2) (u := 1 / 2) (a := 1) (j := 1) (b := 1) (k := 1)
    (by norm_num) (by norm_num) le_rfl le_rfl
    (by norm_num) (by norm_num) (by norm_num) (by norm_num) le_rfl (by norm_num) (by norm_num)

theorem percentileIndex_two_95 : percentileIndex 2 (f64 (95 / 100)) = 0 :=
  percentileIndex_eq (l := 3 / 4) (u := 31 / 32) (a := 3) (j := 2) (b := 31) (k := 5)
    (by norm_num) (by norm_num) p95_between.1 p95_between.2
    (by norm_num) (by norm_num) (by norm_num) (by norm_num) le_rfl (by norm_num) (by norm_num)

theorem percentileIndex_two_99 : percentileIndex 2 (f64 (99 / 100)) = 0 :=
  percentileIndex_eq (l := 3 / 4) (u := 127 / 128) (a := 3) (j := 2) (b := 127) (k := 7)
    (by norm_num) (by norm_num) p99_between.1 p99_between.2
    (by norm_num) (by norm_num) (by norm_num) (by norm_num) le_rfl (by norm_num) (by norm_num)

theorem percentileIndex_four_50 : percentileIndex 4 (f64 (1 / 2)) = 1 := by
  rw [f64_half]
  exact percentileIndex_eq (l := 1 / 2) (u := 1 / 2) (a := 3) (j := 1) (b := 3) (k := 1)
    (by norm_num) (by norm_num) le_rfl le_rfl
    (by norm_num) (by norm_num) (by norm_num) (by norm_num) (by norm_num) (by norm_num)
    (by norm_num)

theorem percentileIndex_four_95 : percentileIndex 4 (f64 (95 / 100)) = 2 :=
  percentileIndex_eq (l := 3 / 4) (u := 31 / 32) (a := 9) (j := 2) (b := 93) (k := 5)
    (by norm_num) (by norm_num) p95_between.1 p95_between.2
    (by norm_num) (by norm_num) (by norm_num) (by norm_num) (by norm_num) (by norm_num)
    (by norm_num)

theorem percentileIndex_four_99 : percentileIndex 4 (f64 (99 / 100)) = 2 :=
  percentileIndex_eq (l := 3 / 4) (u := 127 / 128) (a := 9) (j := 2) (b := 381) (k := 7)
    (by norm_num) (by norm_num) p99_between.1 p99_between.2
    (by norm_num) (by norm_num) (by norm_num) (by norm_num) (by norm_num) (by norm_num)
    (by norm_num)

theorem examplePool_fresh : examplePool.latencies = [] ∧ examplePool.metrics = {} :=
  ⟨rfl, rfl⟩

theorem recordAll_last (p0 : Pool) (h0 : p0.latencies = [] ∧ p0.metrics = {})
    (calls : List (Int × Bool)) (c : Int × Bool) :
    ∃ p q, recordAll p0 calls = .ok p ∧ recordAll p0 (calls ++ [c]) = .ok q ∧
      updateMetrics p c.1 c.2 = .ok q ∧ p.latencies.length ≤ 1000 ∧
      q.latencies = (calls.map Prod.fst ++ [c.1]).drop
        ((calls.map Prod.fst ++ [c.1]).length - 1000) := by
  have hz : wrap64 0 = 0 := by unfold wrap64; omega
  obtain ⟨p, hp, hpl, -⟩ := recordAll_spec calls p0 (by simp [h0.1])
    (by rw [h0.2]; exact hz) (by rw [h0.2]; exact hz) (by rw [h0.2]; exact hz)
  obtain ⟨q, hq, hql, -⟩ := recordAll_spec (calls ++ [c]) p0 (by simp [h0.1])
    (by rw [h0.2]; exact hz) (by rw [h0.2]; exact hz) (by rw [h0.2]; exact hz)
  have hplen : p.latencies.length ≤ 1000 := by
    rw [hpl]; simp only [List.length_drop]; omega
  refine ⟨p, q, hp, hq, ?_, hplen, ?_⟩
  · have := recordAll_snoc calls c p0
    rw [hp] at this
    simp only at this
    rw [← this, hq]
  · rw [hql, h0.1]; simp

/-- C2, the code at a window that is not recorded in ascending order: after the durations
2 and 1, `updateMetrics` leaves `P50 = P95 = P99 = 2`, the element at index 0 of the window
`[2, 1]` in insertion order, whereas the element at index `floor ((n - 1) * q)` of the
ascending-sorted copy `[1, 2]` is 1 for each of the three percentiles. -/
theorem percentiles_insertion_order :
    ∃ p, recordAll examplePool [(2, true), (1, true)] = .ok p ∧
      p.latencies = [2, 1] ∧
      p.metrics.LatencyStats.P50 = 2 ∧
      p.metrics.LatencyStats.P95 = 2 ∧
      p.metrics.LatencyStats.P99 = 2 ∧
      (p.latencies.insertionSort (· ≤ ·))[
        (⌊((p.latencies.length : ℚ) - 1) * (1 / 2)⌋).toNat]? = some 1 ∧
      (p.latencies.insertionSort (· ≤ ·))[
        (⌊((p.latencies.length : ℚ) - 1) * (95 / 100)⌋).toNat]? = some 1 ∧
      (p.latencies.insertionSort (· ≤ ·))[
        (⌊((p.latencies.length : ℚ) - 1) * (99 / 100)⌋).toNat]? = some 1 := by
  obtain ⟨p, q, -, hq, hu, hplen, hl⟩ :=
    recordAll_last examplePool examplePool_fresh [(2, true)] (1, true)
  obtain ⟨q1, hq1, -, -, -, -, -, -, h50, h95, h99, -⟩ := updateMetrics_spec p 1 true hplen
  have hqq : q1 = q := by
    have : Except.ok q1 = (Except.ok q : Except Panic Pool) := by rw [← hq1, ← hu]
    exact Except.ok.inj this
  subst hqq
  have hl2 : q1.latencies = [2, 1] := by rw [hl]; rfl
  rw [hl2] at h50 h95 h99
  simp only [List.length_cons, List.length_nil, Nat.zero_add, Nat.reduceAdd] at h50 h95 h99
  rw [percentileIndex_two_50] at h50
  rw [percentileIndex_two_95] at h95
  rw [percentileIndex_two_99] at h99
  simp only [Int.toNat_zero, List.getElem?_cons_zero, Option.some.injEq] at h50 h95 h99
  refine ⟨q1, hq, hl2, h50.symm, h95.symm, h99.symm, ?_, ?_, ?_⟩ <;>
    · rw [hl2]; norm_num [List.insertionSort, List.orderedInsert]

/-- C3, the code at four positive durations: after the durations 5, 9, 1, 7 the window is
`[5, 9, 1, 7]` and `updateMetrics` leaves `P50 = 9` (index 1) and `P95 = P99 = 1` (index 2),
so `P50 ≤ P95` fails. -/
theorem percentiles_not_ordered :
    ∃ p, recordAll examplePool [(5, true), (9, true), (1, true), (7, true)] = .ok p ∧
      p.latencies = [5, 9, 1, 7] ∧
      p.metrics.LatencyStats.P50 = 9 ∧
      p.metrics.LatencyStats.P95 = 1 ∧
      p.metrics.LatencyStats.P99 = 1 ∧
      ¬ (p.metrics.LatencyStats.P50 ≤ p.metrics.LatencyStats.P95) := by
  obtain ⟨p, q, -, hq, hu, hplen, hl⟩ :=
    recordAll_last examplePool examplePool_fresh [(5, true), (9, true), (1, true)] (7, true)
  obtain ⟨q1, hq1, -, -, -, -, -, -, h50, h95, h99, -⟩ := updateMetrics_spec p 7 true hplen
  have hqq : q1 = q := by
    have : Except.ok q1 = (Except.ok q : Except Panic Pool) := by rw [← hq1, ← hu]
    exact Except.ok.inj this
  subst hqq
  have hl2 : q1.latencies = [5, 9, 1, 7] := by rw [hl]; rfl
  rw [hl2] at h50 h95 h99
  simp only [List.length_cons, List.length_nil, Nat.zero_add, Nat.reduceAdd] at h50 h95 h99
  rw [percentileIndex_four_50] at h50
  rw [percentileIndex_four_95] at h95
  rw [percentileIndex_four_99] at h99
  have e1 : (1 : Int).toNat = 1 := rfl
  have e2 : (2 : Int).toNat = 2 := rfl
  rw [e1] at h50
  rw [e2] at h95 h99
  simp only [List.getElem?_cons_succ, List.getElem?_cons_zero, Option.some.injEq]
    at h50 h95 h99
  refine ⟨q1, hq, hl2, h50.symm, h95.symm, h99.symm, ?_⟩
  rw [← h50, ← h95]; decide

/-! ## Lemmas on the rate limiter -/

theorem Seconds_nonneg {d : Int} (h : 0 ≤ d) : 0 ≤ Seconds d := by
  unfold Seconds
  have h1 : (0 : ℚ) ≤ ((Int.tdiv d Second : Int) : ℚ) := by
    exact_mod_cast Int.tdiv_nonneg h (by unfold Second; omega)
  have h2 : (0 : ℚ) ≤ ((Int.tmod d Second : Int) : ℚ) := by
    exact_mod_cast Int.tmod_nonneg _ h
  apply f64_nonneg
  apply add_nonneg (f64_nonneg h1)
  apply f64_nonneg
  exact div_nonneg (f64_nonneg h2) (by norm_num)

theorem timeSub_nonneg {t u : Int} (h : u ≤ t) : 0 ≤ timeSub t u := by
  unfold timeSub maxDuration minDuration
  split_ifs <;> omega

theorem refill_spec {r : RateLimiter} {now : Int} (_h0 : 0 ≤ r.tokens)
    (h1 : r.tokens ≤ r.rate) (hrep : Representable r.tokens) (hrate : Representable r.rate)
    (hr : 0 ≤ r.rate) (hnow : r.lastCheck ≤ now) :
    r.tokens ≤ refill r now ∧ refill r now ≤ r.rate ∧ Representable (refill r now) := by
  unfold refill
  simp only
  have hx : 0 ≤ f64 (Seconds (timeSub now r.lastCheck) * r.rate) :=
    f64_nonneg (mul_nonneg (Seconds_nonneg (timeSub_nonneg hnow)) hr)
  have hge : r.tokens ≤ f64 (r.tokens + f64 (Seconds (timeSub now r.lastCheck) * r.rate)) := by
    have := f64_mono (le_add_of_nonneg_right hx : r.tokens ≤ r.tokens + _)
    rwa [f64_of_representable hrep] at this
  split_ifs with hc
  · exact ⟨h1, le_rfl, hrate⟩
  · exact ⟨hge, not_lt.mp hc, f64_representable _⟩

theorem f64_intCast_ge_one {rps : Int} (h : 1 ≤ rps) : 1 ≤ f64 (rps : ℚ) := by
  have : (1 : ℚ) ≤ (rps : ℚ) := by exact_mod_cast h
  have := f64_mono this
  rwa [f64_one] at this

theorem goDiv_Second {rps : Int} (h : rps ≠ 0) :
    goDiv Second rps = .ok (wrap64 (Int.tdiv Second rps)) := by
  unfold goDiv; rw [if_neg h]

theorem NewRateLimiter_ok {n : Int} (now : Int) (h : n ≠ 0) :
    NewRateLimiter n now = .ok
      { rate := f64 n
        interval := wrap64 (Int.tdiv Second n)
        lastCheck := now
        tokens := f64 n } := by
  unfold NewRateLimiter; rw [goDiv_Second h]

theorem UpdateRate_ok (r : RateLimiter) {n : Int} (h : n ≠ 0) :
    UpdateRate r n = .ok { r with
      rate := f64 n
      interval := wrap64 (Int.tdiv Second n)
      tokens := if r.tokens > f64 n then f64 n else r.tokens } := by
  unfold UpdateRate; rw [goDiv_Second h]

theorem NewRateLimiter_inv {rps now : Int} {r : RateLimiter} (h : 1 ≤ rps)
    (hr : NewRateLimiter rps now = .ok r) :
    LimiterInv r ∧ r.lastCheck = now ∧ r.rate = f64 rps ∧ r.tokens = f64 rps := by
  rw [NewRateLimiter_ok now (by omega)] at hr
  cases hr
  have h1 := f64_intCast_ge_one h
  exact ⟨⟨by linarith, le_rfl, f64_representable _, f64_representable _, h1⟩, rfl, rfl, rfl⟩

theorem UpdateRate_inv {r r1 : RateLimiter} {rps : Int} (hinv : LimiterInv r) (h : 1 ≤ rps)
    (hr : UpdateRate r rps = .ok r1) :
    LimiterInv r1 ∧ r1.lastCheck = r.lastCheck ∧ r1.rate = f64 rps := by
  rw [UpdateRate_ok r (by omega)] at hr
  cases hr
  obtain ⟨h0, _, hrep, _, _⟩ := hinv
  have h1 := f64_intCast_ge_one h
  refine ⟨⟨?_, ?_, ?_, f64_representable _, h1⟩, rfl, rfl⟩
  · simp only; split_ifs <;> linarith
  · simp only; split_ifs with hc
    · exact le_rfl
    · exact not_lt.mp hc
  · simp only; split_ifs
    · exact f64_representable _
    · exact hrep

theorem Wait_inv {r : RateLimiter} {now : Int} (ctxDone : Bool) (hinv : LimiterInv r)
    (hnow : r.lastCheck ≤ now) :
    LimiterInv (Wait r now ctxDone).state ∧ (Wait r now ctxDone).state.lastCheck = now ∧
      (Wait r now ctxDone).state.rate = r.rate := by
  obtain ⟨h0, h1, hrep, hrate, hr1⟩ := hinv
  obtain ⟨hge, hle, hrrep⟩ := refill_spec h0 h1 hrep hrate (by linarith) hnow
  unfold Wait
  simp only
  split_ifs with hlt hc
  · exact ⟨⟨le_trans h0 hge, hle, hrrep, hrate, hr1⟩, rfl, rfl⟩
  · refine ⟨⟨?_, ?_, f64_representable _, hrate, hr1⟩, rfl, rfl⟩
    · simp [f64_zero]
    · simp only [sub_self, f64_zero]; linarith
  · have hge1 : (1 : ℚ) ≤ refill r now := not_lt.mp hlt
    refine ⟨⟨?_, ?_, f64_representable _, hrate, hr1⟩, rfl, rfl⟩
    · exact f64_nonneg (by linarith)
    · have := f64_mono (by linarith : refill r now - 1 ≤ refill r now)
      rw [f64_of_representable hrrep] at this
      exact le_trans this hle

theorem applyOps_inv (ops : List LimiterOp) :
    ∀ (r : RateLimiter), LimiterInv r → validOps r.lastCheck ops = true →
      ∃ r1, applyOps r ops = .ok r1 ∧ LimiterInv r1 := by
  induction ops with
  | nil => intro r hinv _; exact ⟨r, rfl, hinv⟩
  | cons op rest ih =>
    intro r hinv hv
    cases op with
    | wait now c =>
      simp only [validOps, Bool.and_eq_true, decide_eq_true_eq] at hv
      obtain ⟨hi, hl, -⟩ := Wait_inv c hinv hv.1
      obtain ⟨r1, hr1, hinv1⟩ := ih _ hi (by rw [hl]; exact hv.2)
      exact ⟨r1, by simp only [applyOps, applyOp]; exact hr1, hinv1⟩
    | updateRate rps =>
      simp only [validOps, Bool.and_eq_true, decide_eq_true_eq] at hv
      have hok := UpdateRate_ok r (n := rps) (by omega)
      obtain ⟨hi, hl, -⟩ := UpdateRate_inv hinv hv.1 hok
      obtain ⟨r1, hr1, hinv1⟩ := ih _ hi (by rw [hl]; exact hv.2)
      exact ⟨r1, by simp only [applyOps, applyOp, hok]; exact hr1, hinv1⟩

theorem timeSub_self (t : Int) : timeSub t t = 0 := by
  unfold timeSub maxDuration minDuration
  simp

theorem Seconds_zero : Seconds 0 = 0 := by
  unfold Seconds
  simp [f64_zero]

theorem refill_same_time {r : RateLimiter} {now : Int} (hinv : LimiterInv r)
    (hnow : r.lastCheck = now) : refill r now = r.tokens := by
  obtain ⟨_, h1, hrep, _, _⟩ := hinv
  unfold refill
  simp only
  rw [hnow, timeSub_self, Seconds_zero, zero_mul, f64_zero, add_zero, f64_of_representable hrep]
  rw [if_neg (not_lt.mpr h1)]

theorem Wait_of_one_le {r : RateLimiter} {now : Int} (ctxDone : Bool)
    (h : 1 ≤ refill r now) :
    Wait r now ctxDone =
      { err := none
        waitTime := 0
        suspended := false
        state := { r with lastCheck := now, tokens := f64 (refill r now - 1) } } := by
  unfold Wait
  simp only
  rw [if_neg (not_lt.mpr h)]

theorem Wait_of_lt_one {r : RateLimiter} {now : Int} (ctxDone : Bool)
    (h : refill r now < 1) :
    Wait r now ctxDone =
      { err := if ctxDone then some () else none
        waitTime := truncToInt (f64 (f64 (f64 (1 - refill r now) / r.rate) * (Second : ℚ)))
        suspended := true
        state := { r with
          lastCheck := now
          tokens := if ctxDone then refill r now else f64 (1 - 1) } } := by
  unfold Wait
  simp only
  rw [if_pos h]
  cases ctxDone <;> simp

theorem waitN_spec {R now : Int} {r0 : RateLimiter} (hR1 : 1 ≤ R) (hR2 : R ≤ 2 ^ 53)
    (h0 : NewRateLimiter R now = .ok r0) :
    ∀ k : Nat, (k : Int) ≤ R →
      LimiterInv (waitN r0 now k) ∧ (waitN r0 now k).lastCheck = now ∧
        (waitN r0 now k).rate = (R : ℚ) ∧ (waitN r0 now k).tokens = (R : ℚ) - k := by
  have hRabs : |R| ≤ 2 ^ 53 := by rw [abs_of_nonneg (by omega)]; exact hR2
  obtain ⟨hinv0, hl0, hr0, ht0⟩ := NewRateLimiter_inv hR1 h0
  rw [f64_intCast hRabs] at hr0 ht0
  intro k
  induction k with
  | zero =>
    intro _
    exact ⟨hinv0, hl0, hr0, by simpa using ht0⟩
  | succ k ih =>
    intro hk
    obtain ⟨hinv, hl, hr, ht⟩ := ih (by push_cast at hk; omega)
    have hrf := refill_same_time hinv hl
    have hge : (1 : ℚ) ≤ refill (waitN r0 now k) now := by
      rw [hrf, ht]
      have : ((k : Int) : ℚ) + 1 ≤ (R : ℚ) := by exact_mod_cast hk
      push_cast at this
      linarith
    obtain ⟨hi1, hl1, hr1⟩ := Wait_inv false hinv (le_of_eq hl)
    refine ⟨hi1, hl1, by rw [← hr]; exact hr1, ?_⟩
    show (Wait (waitN r0 now k) now false).state.tokens = _
    rw [Wait_of_one_le false hge]
    show f64 (refill (waitN r0 now k) now - 1) = _
    rw [hrf, ht]
    have e : (R : ℚ) - (k : ℚ) - 1 = ((R - k - 1 : Int) : ℚ) := by push_cast; ring
    rw [e, f64_intCast (by rw [abs_of_nonneg (by push_cast at hk; omega)]; omega)]
    push_cast; ring

theorem roundHalfEven_eq {x : ℚ} {m : Int} (h1 : (m : ℚ) - 1 / 2 < x) (h2 : x < m + 1 / 2) :
    roundHalfEven x = m := by
  have hx1 := Int.floor_le x
  have hx2 := Int.lt_floor_add_one x
  have hlo : m - 1 ≤ ⌊x⌋ := by
    rw [Int.le_floor]; push_cast; linarith
  have hhi : ⌊x⌋ ≤ m := by
    rw [← Int.lt_add_one_iff, Int.floor_lt]; push_cast; linarith
  unfold roundHalfEven
  rcases (by omega : ⌊x⌋ = m - 1 ∨ ⌊x⌋ = m) with hf | hf
  · rw [hf] at hx1 hx2 ⊢
    push_cast at hx1 hx2 ⊢
    rw [if_neg (by linarith), if_pos (by linarith)]
    ring
  · rw [hf] at hx1 hx2 ⊢
    rw [if_pos (by linarith)]

theorem log_eq_of_bounds {q : ℚ} {z : Int} (h1 : (2 : ℚ) ^ z ≤ q) (h2 : q < (2 : ℚ) ^ (z + 1)) :
    Int.log 2 q = z := by
  have hq : 0 < q := lt_of_lt_of_le (two_zpow_pos z) h1
  have a := (Int.zpow_le_iff_le_log (R := ℚ) (b := 2) (by norm_num) (x := z) hq).1
    (by exact_mod_cast h1)
  have b := (Int.lt_zpow_iff_log_lt (R := ℚ) (b := 2) (by norm_num) (x := z + 1) hq).1
    (by exact_mod_cast h2)
  omega

theorem f64_eq_round {q : ℚ} {m e : Int} (hm1 : 2 ^ 52 < m) (hm2 : m < 2 ^ 53)
    (h1 : ((m : ℚ) - 1 / 2) * (2 : ℚ) ^ e < q) (h2 : q < ((m : ℚ) + 1 / 2) * (2 : ℚ) ^ e) :
    f64 q = m * (2 : ℚ) ^ e := by
  have hu := two_zpow_pos e
  have hm1q : ((2 : ℚ) ^ (52 : ℤ)) + 1 ≤ (m : ℚ) := by
    have : ((2 ^ 52 + 1 : Int) : ℚ) ≤ (m : ℚ) := by exact_mod_cast hm1
    norm_num at this ⊢
    linarith
  have hm2q : (m : ℚ) + 1 ≤ ((2 : ℚ) ^ (53 : ℤ)) := by
    have : ((m + 1 : Int) : ℚ) ≤ ((2 ^ 53 : Int) : ℚ) := by exact_mod_cast hm2
    norm_num at this ⊢
    linarith
  have hlo : (2 : ℚ) ^ (52 + e) ≤ q := by
    rw [zpow_add₀ (by norm_num : (2 : ℚ) ≠ 0)]
    have : (2 : ℚ) ^ (52 : ℤ) * (2 : ℚ) ^ e ≤ ((m : ℚ) - 1 / 2) * (2 : ℚ) ^ e :=
      mul_le_mul_of_nonneg_right (by linarith) hu.le
    linarith
  have hhi : q < (2 : ℚ) ^ (52 + e + 1) := by
    have e1 : (52 : ℤ) + e + 1 = 53 + e := by ring
    rw [e1, zpow_add₀ (by norm_num : (2 : ℚ) ≠ 0)]
    have : ((m : ℚ) + 1 / 2) * (2 : ℚ) ^ e ≤ (2 : ℚ) ^ (53 : ℤ) * (2 : ℚ) ^ e :=
      mul_le_mul_of_nonneg_right (by linarith) hu.le
    linarith
  have hq : 0 < q := lt_of_lt_of_le (two_zpow_pos _) hlo
  have hlog := log_eq_of_bounds hlo hhi
  unfold f64
  rw [if_neg hq.ne', abs_of_pos hq, hlog]
  have e2 : (52 : ℤ) + e - 52 = e := by ring
  rw [e2, roundHalfEven_eq (m := m)]
  · rw [lt_div_iff₀ hu]; exact h1
  · rw [div_lt_iff₀ hu]; exact h2

theorem f64_nano : f64 (1 / 1000000000) = 4835703278458517 * (2 : ℚ) ^ (-82 : ℤ) := by
  have := f64_eq_round (q := 1 / 1000000000) (m := 4835703278458517) (e := -82)
    (by norm_num) (by norm_num) (by norm_num) (by norm_num)
  exact_mod_cast this

theorem waitTime_pos_of_le {R : Int} (h1 : 1 ≤ R) (h2 : R ≤ 1000000000) :
    1 ≤ truncToInt (f64 (f64 (1 / (R : ℚ)) * (Second : ℚ))) := by
  have hRq : (0 : ℚ) < (R : ℚ) := by exact_mod_cast (by omega : 0 < R)
  have hRle : (R : ℚ) ≤ 1000000000 := by exact_mod_cast h2
  have ha : (1 : ℚ) / 1000000000 ≤ 1 / (R : ℚ) := by
    rw [div_le_div_iff₀ (by norm_num) hRq]; linarith
  have hb := f64_mono ha
  rw [f64_nano] at hb
  have hc : (1 : ℚ) ≤ f64 (1 / (R : ℚ)) * (Second : ℚ) := by
    have : (4835703278458517 * (2 : ℚ) ^ (-82 : ℤ)) * 1000000000 ≤
        f64 (1 / (R : ℚ)) * 1000000000 := mul_le_mul_of_nonneg_right hb (by norm_num)
    have hge : (1 : ℚ) ≤ (4835703278458517 * (2 : ℚ) ^ (-82 : ℤ)) * 1000000000 := by norm_num
    unfold Second
    push_cast
    linarith
  have hd := f64_mono hc
  rw [f64_one] at hd
  unfold truncToInt
  rw [if_pos (by linarith)]
  exact Int.le_floor.mpr (by exact_mod_cast hd)

theorem waitTime_zero_of_gt {R : Int} (h : 1000000000 < R) :
    truncToInt (f64 (f64 (1 / (R : ℚ)) * (Second : ℚ))) = 0 := by
  have hRq : (0 : ℚ) < (R : ℚ) := by exact_mod_cast (by omega : 0 < R)
  have hRge : (1000000001 : ℚ) ≤ (R : ℚ) := by exact_mod_cast (by omega : 1000000001 ≤ R)
  have ha : 1 / (R : ℚ) ≤ (4835703273622814 : ℤ) / 2 ^ 82 := by
    rw [div_le_div_iff₀ hRq (by norm_num)]
    push_cast
    nlinarith
  have hb := f64_mono ha
  rw [f64_dyadic _ _ (by norm_num)] at hb
  have h0 : 0 ≤ f64 (1 / (R : ℚ)) := f64_nonneg (by positivity)
  have hc : f64 (1 / (R : ℚ)) * (Second : ℚ) ≤ (1073741823 : ℤ) / 2 ^ 30 := by
    unfold Second
    push_cast at hb ⊢
    have : f64 (1 / (R : ℚ)) * 1000000000 ≤ 4835703273622814 / 2 ^ 82 * 1000000000 :=
      mul_le_mul_of_nonneg_right hb (by norm_num)
    have h3 : (4835703273622814 : ℚ) / 2 ^ 82 * 1000000000 ≤ 1073741823 / 2 ^ 30 := by
      norm_num
    linarith
  have hd := f64_mono hc
  rw [f64_dyadic _ _ (by norm_num)] at hd
  have hnn : 0 ≤ f64 (f64 (1 / (R : ℚ)) * (Second : ℚ)) :=
    f64_nonneg (mul_nonneg h0 (by unfold Second; norm_num))
  apply truncToInt_eq (by exact_mod_cast hnn) _ le_rfl
  push_cast at hd ⊢
  have : (1073741823 : ℚ) / 2 ^ 30 < 1 := by norm_num
  linarith

theorem roundHalfEven_err (x : ℚ) : |(roundHalfEven x : ℚ) - x| ≤ 1 / 2 := by
  have hx1 := Int.floor_le x
  have hx2 := Int.lt_floor_add_one x
  unfold roundHalfEven
  rw [abs_le]
  split_ifs <;> push_cast <;> constructor <;> linarith

theorem f64_rel_err {q : ℚ} (hq : 0 < q) : |f64 q - q| ≤ q * (2 : ℚ) ^ (-53 : ℤ) := by
  obtain ⟨h1, _⟩ := log_spec hq
  have hu := two_zpow_pos (Int.log 2 q - 52)
  have herr := roundHalfEven_err (q / (2 : ℚ) ^ (Int.log 2 q - 52))
  have e1 : f64 q - q = ((roundHalfEven (q / (2 : ℚ) ^ (Int.log 2 q - 52)) : ℚ)
      - q / (2 : ℚ) ^ (Int.log 2 q - 52)) * (2 : ℚ) ^ (Int.log 2 q - 52) := by
    unfold f64
    rw [if_neg hq.ne', abs_of_pos hq]
    field_simp
  rw [e1, abs_mul, abs_of_pos hu]
  have e2 : (2 : ℚ) ^ (Int.log 2 q - 52) = (2 : ℚ) ^ Int.log 2 q * (2 : ℚ) ^ (-52 : ℤ) := by
    rw [← zpow_add₀ (by norm_num : (2 : ℚ) ≠ 0)]; congr 1
  calc |(roundHalfEven (q / (2 : ℚ) ^ (Int.log 2 q - 52)) : ℚ)
          - q / (2 : ℚ) ^ (Int.log 2 q - 52)| * (2 : ℚ) ^ (Int.log 2 q - 52)
      ≤ 1 / 2 * (2 : ℚ) ^ (Int.log 2 q - 52) := mul_le_mul_of_nonneg_right herr hu.le
    _ = (2 : ℚ) ^ Int.log 2 q * (2 : ℚ) ^ (-53 : ℤ) := by
        rw [e2]; norm_num; ring
    _ ≤ q * (2 : ℚ) ^ (-53 : ℤ) := mul_le_mul_of_nonneg_right h1 (two_zpow_pos _).le

theorem waitTime_near {R : Int} (h1 : 1 ≤ R) :
    1000000000 / R - 1 ≤ truncToInt (f64 (f64 (1 / (R : ℚ)) * (Second : ℚ))) ∧
      truncToInt (f64 (f64 (1 / (R : ℚ)) * (Second : ℚ))) ≤ 1000000000 / R := by
  have hRq : (0 : ℚ) < (R : ℚ) := by exact_mod_cast (by omega : 0 < R)
  have hx0 : (0 : ℚ) < 1 / (R : ℚ) := by positivity
  have hxe := abs_le.mp (f64_rel_err hx0)
  have hxpos : 0 < f64 (1 / (R : ℚ)) := by
    have := (f64_pos_bounds hx0).1
    exact lt_of_lt_of_le (two_zpow_pos _) this
  have hy0 : (0 : ℚ) < f64 (1 / (R : ℚ)) * (Second : ℚ) :=
    mul_pos hxpos (by unfold Second; norm_num)
  have hye := abs_le.mp (f64_rel_err hy0)
  have hynn : 0 ≤ f64 (f64 (1 / (R : ℚ)) * (Second : ℚ)) := f64_nonneg hy0.le
  have hS : (Second : ℚ) = 1000000000 := by unfold Second; norm_num
  rw [hS] at hye hy0 hynn ⊢
  set x := f64 (1 / (R : ℚ)) with hx
  set y := f64 (x * 1000000000) with hy
  have hε : (2 : ℚ) ^ (-53 : ℤ) = 1 / 9007199254740992 := by norm_num
  rw [hε] at hxe hye
  -- the integer quotient and remainder of 10^9 by R
  have hdm := Int.emod_add_ediv 1000000000 R
  have hmod0 := Int.emod_nonneg 1000000000 (by omega : R ≠ 0)
  have hmod1 := Int.emod_lt_of_pos 1000000000 (by omega : 0 < R)
  have hN : (1000000000 : ℚ) = ((1000000000 % R : Int) : ℚ)
      + (R : ℚ) * ((1000000000 / R : Int) : ℚ) := by exact_mod_cast hdm.symm
  have hm0 : (0 : ℚ) ≤ ((1000000000 % R : Int) : ℚ) := by exact_mod_cast hmod0
  have hm1 : ((1000000000 % R : Int) : ℚ) + 1 ≤ (R : ℚ) := by exact_mod_cast hmod1
  have hxR : x * (R : ℚ) ≤ 1 + 1 / 9007199254740992 ∧ 1 - 1 / 9007199254740992 ≤ x * (R : ℚ) := by
    have e : 1 / (R : ℚ) * (R : ℚ) = 1 := by field_simp
    constructor
    · have := mul_le_mul_of_nonneg_right hxe.2 hRq.le
      nlinarith
    · have := mul_le_mul_of_nonneg_right hxe.1 hRq.le
      nlinarith
  have hyR_hi : y * (R : ℚ) < 1000000000 + 1 := by
    have := mul_le_mul_of_nonneg_right hye.2 hRq.le
    nlinarith
  have hyR_lo : 1000000000 - 1 < y * (R : ℚ) := by
    have := mul_le_mul_of_nonneg_right hye.1 hRq.le
    nlinarith
  unfold truncToInt
  rw [if_pos hynn]
  constructor
  · rw [Int.le_floor]
    push_cast
    by_contra hcon
    push_neg at hcon
    have := mul_lt_mul_of_pos_right hcon hRq
    nlinarith
  · rw [← Int.lt_add_one_iff, Int.floor_lt]
    push_cast
    by_contra hcon
    push_neg at hcon
    have := mul_le_mul_of_nonneg_right hcon hRq.le
    nlinarith

theorem f64_neg_intCast_lt {rps : Int} (h : rps < 0) : f64 (rps : ℚ) < 0 := by
  have h1 : (rps : ℚ) ≤ ((-1 : Int) : ℚ) := by exact_mod_cast (by omega : rps ≤ -1)
  have h2 := f64_mono h1
  have h3 : f64 (((-1 : Int)) : ℚ) = ((-1 : Int) : ℚ) := f64_intCast (n := -1) (by norm_num)
  rw [h3] at h2
  push_cast at h2
  linarith

theorem wait_after_full {R now : Int} {r0 : RateLimiter} (hR1 : 1 ≤ R) (hR2 : R ≤ 2 ^ 53)
    (h0 : NewRateLimiter R now = .ok r0) (ctxDone : Bool) :
    (Wait (waitN r0 now R.toNat) now ctxDone).suspended = true ∧
      (Wait (waitN r0 now R.toNat) now ctxDone).waitTime
        = truncToInt (f64 (f64 (1 / (R : ℚ)) * (Second : ℚ))) ∧
      (Wait (waitN r0 now R.toNat) now ctxDone).err = (if ctxDone then some () else none) := by
  obtain ⟨hinv, hl, hr, ht⟩ := waitN_spec hR1 hR2 h0 R.toNat (by omega)
  have hk : ((R.toNat : Nat) : ℚ) = (R : ℚ) := by
    have : ((R.toNat : Nat) : Int) = R := Int.toNat_of_nonneg (by omega)
    exact_mod_cast this
  rw [hk, sub_self] at ht
  have hrf := refill_same_time hinv hl
  rw [ht] at hrf
  have hlt : refill (waitN r0 now R.toNat) now < 1 := by rw [hrf]; norm_num
  rw [Wait_of_lt_one ctxDone hlt]
  simp only [hrf, hr, sub_zero, f64_one, true_and]

/-! ## Claims on the rate limiter -/

/-- C5: for every rate `R ≥ 1`, `NewRateLimiter R` returns a limiter with
`0 ≤ tokens ≤ rate`, and after every sequence of `Wait` calls with non-negative elapsed time
(returning success or cancelled) and `UpdateRate` calls with rates of at least 1 the limiter
still has `0 ≤ tokens ≤ rate`; from such a state one more `Wait` (either outcome) or one more
`UpdateRate R1`, also with `R1` below the current token count, keeps it: `UpdateRate` never
leaves `tokens > rate`. -/
theorem token_bucket_invariant (R now0 : Int) (hR : 1 ≤ R) (ops : List LimiterOp)
    (hv : validOps now0 ops = true) :
    ∃ r0 r, NewRateLimiter R now0 = .ok r0 ∧ 0 ≤ r0.tokens ∧ r0.tokens ≤ r0.rate ∧
      applyOps r0 ops = .ok r ∧ 0 ≤ r.tokens ∧ r.tokens ≤ r.rate ∧
      (∀ (now : Int) (ctxDone : Bool), r.lastCheck ≤ now →
        0 ≤ (Wait r now ctxDone).state.tokens ∧
        (Wait r now ctxDone).state.tokens ≤ (Wait r now ctxDone).state.rate) ∧
      (∀ R1 : Int, 1 ≤ R1 →
        ∃ r1, UpdateRate r R1 = .ok r1 ∧ 0 ≤ r1.tokens ∧ r1.tokens ≤ r1.rate) := by
  have hok := NewRateLimiter_ok (n := R) now0 (by omega)
  obtain ⟨hinv0, hl0, -, -⟩ := NewRateLimiter_inv hR hok
  obtain ⟨r, hr, hinv⟩ := applyOps_inv ops _ hinv0 (by rw [hl0]; exact hv)
  refine ⟨_, r, hok, hinv0.1, hinv0.2.1, hr, hinv.1, hinv.2.1, ?_, ?_⟩
  · intro now c hnow
    obtain ⟨hi, -, -⟩ := Wait_inv c hinv hnow
    exact ⟨hi.1, hi.2.1⟩
  · intro R1 hR1
    have hok1 := UpdateRate_ok r (n := R1) (by omega)
    obtain ⟨hi, -, -⟩ := UpdateRate_inv hinv hR1 hok1
    exact ⟨_, hok1, hi.1, hi.2.1⟩

/-- C5, instantiated: rate 10, then a `Wait`, a rate decrease to 5 and a cancelled `Wait`. -/
theorem token_bucket_invariant_witness :
    (1 : Int) ≤ 10 ∧
    validOps 0 [.wait 1 false, .updateRate 5, .wait 2 true] = true ∧
    ∃ r0 r, NewRateLimiter 10 0 = .ok r0 ∧ 0 ≤ r0.tokens ∧ r0.tokens ≤ r0.rate ∧
      applyOps r0 [.wait 1 false, .updateRate 5, .wait 2 true] = .ok r ∧
      0 ≤ r.tokens ∧ r.tokens ≤ r.rate ∧
      (∀ (now : Int) (ctxDone : Bool), r.lastCheck ≤ now →
        0 ≤ (Wait r now ctxDone).state.tokens ∧
        (Wait r now ctxDone).state.tokens ≤ (Wait r now ctxDone).state.rate) ∧
      (∀ R1 : Int, 1 ≤ R1 →
        ∃ r1, UpdateRate r R1 = .ok r1 ∧ 0 ≤ r1.tokens ∧ r1.tokens ≤ r1.rate) :=
  ⟨by decide, by decide,
    token_bucket_invariant 10 0 (by decide) [.wait 1 false, .updateRate 5, .wait 2 true]
      (by decide)⟩

/-- C6, as stated, fails at the rate `2 * 10 ^ 9`: after `R` uninterrupted calls on a fresh
bucket the next call suspends, but the duration it computes is 0 nanoseconds, not strictly
positive. -/
theorem wait_from_full_bucket_counterexample :
    ∃ r0, NewRateLimiter 2000000000 0 = .ok r0 ∧
      (Wait (waitN r0 0 (2000000000 : Int).toNat) 0 false).suspended = true ∧
      (Wait (waitN r0 0 (2000000000 : Int).toNat) 0 false).waitTime = 0 := by
  have hok := NewRateLimiter_ok (n := 2000000000) 0 (by decide)
  obtain ⟨h1, h2, -⟩ := wait_after_full (R := 2000000000) (by decide) (by decide) hok false
  exact ⟨_, hok, h1, by rw [h2]; exact waitTime_zero_of_gt (by decide)⟩

/-- C6, amended: for every integer rate `1 ≤ R ≤ 10 ^ 9`, starting from a fresh (full)
bucket and with no time elapsing between calls, each of the first `R` calls of `Wait` does
not suspend (wait time 0) and succeeds; the call after them suspends and, when not cancelled,
succeeds; the wait it computes is `time.Duration(1 / float64(R) * 1e9)` nanoseconds, which is
strictly positive and is `10 ^ 9 / R` (integer quotient) or one less: `1 / R` seconds up to
truncation to whole nanoseconds and one nanosecond of rounding. -/
theorem wait_from_full_bucket (R now : Int) (r0 : RateLimiter) (h1 : 1 ≤ R)
    (h2 : R ≤ 1000000000) (h0 : NewRateLimiter R now = .ok r0) :
    (∀ k : Nat, (k : Int) < R → ∀ ctxDone : Bool,
        (Wait (waitN r0 now k) now ctxDone).err = none ∧
        (Wait (waitN r0 now k) now ctxDone).suspended = false ∧
        (Wait (waitN r0 now k) now ctxDone).waitTime = 0) ∧
      (Wait (waitN r0 now R.toNat) now false).err = none ∧
      (Wait (waitN r0 now R.toNat) now false).suspended = true ∧
      (Wait (waitN r0 now R.toNat) now false).waitTime
        = truncToInt (f64 (f64 (1 / (R : ℚ)) * (Second : ℚ))) ∧
      0 < (Wait (waitN r0 now R.toNat) now false).waitTime ∧
      1000000000 / R - 1 ≤ (Wait (waitN r0 now R.toNat) now false).waitTime ∧
      (Wait (waitN r0 now R.toNat) now false).waitTime ≤ 1000000000 / R := by
  have hR2 : R ≤ 2 ^ 53 := by omega
  refine ⟨?_, ?_⟩
  · intro k hk c
    obtain ⟨hinv, hl, hr, ht⟩ := waitN_spec h1 hR2 h0 k (by omega)
    have hrf := refill_same_time hinv hl
    have hge : (1 : ℚ) ≤ refill (waitN r0 now k) now := by
      rw [hrf, ht]
      have : ((k : Int) : ℚ) + 1 ≤ (R : ℚ) := by exact_mod_cast hk
      push_cast at this
      linarith
    rw [Wait_of_one_le c hge]
    exact ⟨rfl, rfl, rfl⟩
  · obtain ⟨hs, hw, he⟩ := wait_after_full h1 hR2 h0 false
    have hpos := waitTime_pos_of_le h1 h2
    obtain ⟨hlo, hhi⟩ := waitTime_near h1
    rw [hw]
    exact ⟨by simpa using he, hs, rfl, by omega, hlo, hhi⟩

/-- C6 amended, instantiated at the rate 10 of the test configuration. -/
theorem wait_from_full_bucket_witness :
    (1 : Int) ≤ 10 ∧ (10 : Int) ≤ 1000000000 ∧ NewRateLimiter 10 0 = .ok exampleLimiter ∧
    ((∀ k : Nat, (k : Int) < 10 → ∀ ctxDone : Bool,
        (Wait (waitN exampleLimiter 0 k) 0 ctxDone).err = none ∧
        (Wait (waitN exampleLimiter 0 k) 0 ctxDone).suspended = false ∧
        (Wait (waitN exampleLimiter 0 k) 0 ctxDone).waitTime = 0) ∧
      (Wait (waitN exampleLimiter 0 (10 : Int).toNat) 0 false).err = none ∧
      (Wait (waitN exampleLimiter 0 (10 : Int).toNat) 0 false).suspended = true ∧
      (Wait (waitN exampleLimiter 0 (10 : Int).toNat) 0 false).waitTime
        = truncToInt (f64 (f64 (1 / ((10 : Int) : ℚ)) * (Second : ℚ))) ∧
      0 < (Wait (waitN exampleLimiter 0 (10 : Int).toNat) 0 false).waitTime ∧
      1000000000 / 10 - 1 ≤ (Wait (waitN exampleLimiter 0 (10 : Int).toNat) 0 false).waitTime ∧
      (Wait (waitN exampleLimiter 0 (10 : Int).toNat) 0 false).waitTime ≤ 1000000000 / 10) :=
  ⟨by decide, by decide, rfl,
    wait_from_full_bucket 10 0 exampleLimiter (by decide) (by decide) rfl⟩

theorem NewRateLimiter_zero (now : Int) : NewRateLimiter 0 now = .error .divideByZero := rfl

theorem UpdateRate_zero (r : RateLimiter) : UpdateRate r 0 = .error .divideByZero := rfl

/-- C7, as stated, fails at the rate `-1`: neither `NewRateLimiter (-1)` nor
`UpdateRate (-1)` signals an error; both return normally with `-1` installed as the rate. -/
theorem invalid_rate_counterexample :
    (∃ r, NewRateLimiter (-1) 0 = .ok r ∧ r.rate = -1 ∧ r.tokens = -1) ∧
    (∃ r, UpdateRate exampleLimiter (-1) = .ok r ∧ r.rate = -1) := by
  have h3 : f64 (((-1 : Int)) : ℚ) = -1 := by
    have := f64_intCast (n := -1) (by norm_num)
    rw [this]; norm_num
  constructor
  · refine ⟨_, NewRateLimiter_ok (n := -1) 0 (by decide), ?_, ?_⟩ <;> exact h3
  · exact ⟨_, UpdateRate_ok exampleLimiter (n := -1) (by decide), h3⟩

/-- C7, amended: for every rate `rps < 0`, `NewRateLimiter rps` and `UpdateRate rps` signal
no error: they return normally (no division by zero occurs) and install `float64(rps)`, a
negative value, as the current rate; `NewRateLimiter` also installs it as the token count and
`UpdateRate` leaves a token count that does not exceed it. -/
theorem negative_rate_installed (rps now : Int) (r : RateLimiter) (h : rps < 0) :
    (∃ r0, NewRateLimiter rps now = .ok r0 ∧ r0.rate = f64 rps ∧ r0.rate < 0 ∧
      r0.tokens = f64 rps) ∧
    (∃ r1, UpdateRate r rps = .ok r1 ∧ r1.rate = f64 rps ∧ r1.rate < 0 ∧
      r1.tokens ≤ r1.rate ∧ r1.tokens ≤ r.tokens) := by
  have hneg := f64_neg_intCast_lt h
  constructor
  · exact ⟨_, NewRateLimiter_ok now (by omega), rfl, hneg, rfl⟩
  · refine ⟨_, UpdateRate_ok r (by omega), rfl, hneg, ?_, ?_⟩
    · simp only; split_ifs with hc
      · exact le_rfl
      · exact not_lt.mp hc
    · simp only; split_ifs with hc
      · exact le_of_lt hc
      · exact le_rfl

/-- C7 amended, instantiated at the rate `-5` on the limiter of the test configuration. -/
theorem negative_rate_installed_witness :
    (-5 : Int) < 0 ∧
    (∃ r0, NewRateLimiter (-5) 0 = .ok r0 ∧ r0.rate = f64 ((-5 : Int) : ℚ) ∧ r0.rate < 0 ∧
      r0.tokens = f64 ((-5 : Int) : ℚ)) ∧
    (∃ r1, UpdateRate exampleLimiter (-5) = .ok r1 ∧ r1.rate = f64 ((-5 : Int) : ℚ) ∧
      r1.rate < 0 ∧ r1.tokens ≤ r1.rate ∧ r1.tokens ≤ exampleLimiter.tokens) :=
  ⟨by decide, negative_rate_installed (-5) 0 exampleLimiter (by decide)⟩

/-- C8: in every state reached from `NewRateLimiter R` (`R ≥ 1`) by `Wait` calls with
non-negative elapsed time and `UpdateRate` calls with rates of at least 1, a `Wait` that
finds fewer than 1 token after the refill and whose `select` takes the cancellation branch
returns the cancellation error and consumes nothing: the token count afterwards is the
refilled value `min (tokens + elapsed * rate) rate` (in float64 arithmetic), which is not
lower than the token count before the call, and the rate is unchanged. -/
theorem wait_cancelled (R now0 : Int) (hR : 1 ≤ R) (ops : List LimiterOp)
    (hv : validOps now0 ops = true) (r0 r : RateLimiter)
    (h0 : NewRateLimiter R now0 = .ok r0) (hr : applyOps r0 ops = .ok r)
    (now : Int) (hnow : r.lastCheck ≤ now) (hlt : refill r now < 1) :
    (Wait r now true).err = some () ∧
      (Wait r now true).suspended = true ∧
      (Wait r now true).state.tokens
        = min (f64 (r.tokens + f64 (Seconds (timeSub now r.lastCheck) * r.rate))) r.rate ∧
      (Wait r now true).state.tokens = refill r now ∧
      r.tokens ≤ (Wait r now true).state.tokens ∧
      (Wait r now true).state.rate = r.rate := by
  obtain ⟨hinv0, hl0, -, -⟩ := NewRateLimiter_inv hR h0
  obtain ⟨r', hr', hinv⟩ := applyOps_inv ops _ hinv0 (by rw [hl0]; exact hv)
  have hrr : r' = r := by
    have : Except.ok r' = (Except.ok r : Except Panic RateLimiter) := by rw [← hr', ← hr]
    exact Except.ok.inj this
  subst hrr
  obtain ⟨h0', h1', hrep, hrate, hr1⟩ := hinv
  obtain ⟨hge, -, -⟩ := refill_spec h0' h1' hrep hrate (by linarith) hnow
  rw [Wait_of_lt_one true hlt]
  simp only [if_true, true_and, and_true]
  refine ⟨?_, hge⟩
  unfold refill
  simp only
  split_ifs with hc
  · exact (min_eq_right (le_of_lt hc)).symm
  · exact (min_eq_left (not_lt.mp hc)).symm


theorem unitLimiter_drained :
    (waitN unitLimiter 0 1).lastCheck ≤ 0 ∧ refill (waitN unitLimiter 0 1) 0 < 1 := by
  obtain ⟨hinv, hl, -, ht⟩ := @waitN_spec 1 0 unitLimiter
    (by decide) (by decide) rfl 1 (by decide)
  have hrf := refill_same_time hinv hl
  refine ⟨le_of_eq hl, ?_⟩
  rw [hrf, ht]; norm_num

/-- C8, instantiated: rate 1, one `Wait` that empties the bucket, then a cancelled `Wait`
at the same clock reading. -/
theorem wait_cancelled_witness :
    (1 : Int) ≤ 1 ∧ validOps 0 [.wait 0 false] = true ∧
    NewRateLimiter 1 0 = .ok unitLimiter ∧
    applyOps unitLimiter [.wait 0 false] = .ok (waitN unitLimiter 0 1) ∧
    (waitN unitLimiter 0 1).lastCheck ≤ 0 ∧ refill (waitN unitLimiter 0 1) 0 < 1 ∧
    ((Wait (waitN unitLimiter 0 1) 0 true).err = some () ∧
      (Wait (waitN unitLimiter 0 1) 0 true).suspended = true ∧
      (Wait (waitN unitLimiter 0 1) 0 true).state.tokens
        = min (f64 ((waitN unitLimiter 0 1).tokens
            + f64 (Seconds (timeSub 0 (waitN unitLimiter 0 1).lastCheck)
              * (waitN unitLimiter 0 1).rate))) (waitN unitLimiter 0 1).rate ∧
      (Wait (waitN unitLimiter 0 1) 0 true).state.tokens = refill (waitN unitLimiter 0 1) 0 ∧
      (waitN unitLimiter 0 1).tokens ≤ (Wait (waitN unitLimiter 0 1) 0 true).state.tokens ∧
      (Wait (waitN unitLimiter 0 1) 0 true).state.rate = (waitN unitLimiter 0 1).rate) :=
  ⟨by decide, by decide, rfl, rfl, unitLimiter_drained.1, unitLimiter_drained.2,
    wait_cancelled 1 0 (by decide) [.wait 0 false] (by decide) unitLimiter
      (waitN unitLimiter 0 1) rfl rfl 0 unitLimiter_drained.1 unitLimiter_drained.2⟩

/-- The zero sentinel of `Min`: after the durations 0 and 5 the code has `Min = 5` although
0 was recorded, and `P50 = 0`, so `Min ≤ P50` fails on a window that is in ascending
order. -/
theorem min_zero_sentinel :
    ∃ p, recordAll examplePool [(0, true), (5, true)] = .ok p ∧
      p.latencies = [0, 5] ∧
      p.metrics.LatencyStats.Min = 5 ∧
      p.metrics.LatencyStats.P50 = 0 := by
  obtain ⟨p1, hp1, -, -, -, -, hmin1, -⟩ :=
    updateMetrics_spec examplePool 0 true (by decide)
  have hm1 : p1.metrics.LatencyStats.Min = 0 := by
    rw [hmin1]; rfl
  obtain ⟨p, q, hp, hq, hu, hplen, hl⟩ :=
    recordAll_last examplePool examplePool_fresh [(0, true)] (5, true)
  have hpp : p = p1 := by
    have h : recordAll examplePool [(0, true)] = .ok p1 := by
      simp only [recordAll, hp1]
    have : Except.ok p = (Except.ok p1 : Except Panic Pool) := by rw [← hp, ← h]
    exact Except.ok.inj this
  subst hpp
  obtain ⟨q1, hq1, -, -, -, -, hmin, -, h50, -⟩ := updateMetrics_spec p 5 true hplen
  have hqq : q1 = q := by
    have : Except.ok q1 = (Except.ok q : Except Panic Pool) := by rw [← hq1, ← hu]
    exact Except.ok.inj this
  subst hqq
  have hl2 : q1.latencies = [0, 5] := by rw [hl]; rfl
  rw [hl2] at h50
  simp only [List.length_cons, List.length_nil, Nat.zero_add, Nat.reduceAdd] at h50
  rw [percentileIndex_two_50] at h50
  simp only [Int.toNat_zero, List.getElem?_cons_zero, Option.some.injEq] at h50
  refine ⟨q1, hq, hl2, ?_, h50.symm⟩
  rw [hmin, hm1]; rfl

/-! ## The ramp-up controller -/

theorem controlRun_ticks_succ (cfg : Config) (k : Nat) :
    ∀ (c : Controller) (rl : RateLimiter),
      controlRun cfg c rl (List.replicate (k + 1) .tick) =
        match controlRun cfg c rl (List.replicate k .tick) with
        | .error e => .error e
        | .ok (c1, rl1) => controlStep cfg c1 rl1 .tick := by
  induction k with
  | zero =>
    intro c rl
    simp only [List.replicate, controlRun]
    cases controlStep cfg c rl .tick with
    | error e => rfl
    | ok v => rfl
  | succ k ih =>
    intro c rl
    rw [List.replicate_succ, controlRun]
    cases h : controlStep cfg c rl .tick with
    | error e => simp only [List.replicate_succ, controlRun, h]
    | ok v =>
      obtain ⟨c1, rl1⟩ := v
      simp only
      rw [ih c1 rl1]
      conv_rhs => rw [List.replicate_succ, controlRun, h]

theorem ramp_value_step {s i m : Int} {k : Nat} (hi : 0 ≤ i) (h1 : -2 ^ 63 ≤ s)
    (h2 : -2 ^ 63 ≤ m) (h3 : s + i < 2 ^ 63) (h4 : m + i < 2 ^ 63) :
    (if wrap64 ((if k = 0 then s else min (s + k * i) m) + i) > m then m
      else wrap64 ((if k = 0 then s else min (s + k * i) m) + i))
      = min (s + ((k + 1 : Nat) : Int) * i) m := by
  have hw : ∀ x : Int, -2 ^ 63 ≤ x → x < 2 ^ 63 → wrap64 x = x := fun x a b =>
    wrap64_of_range a b
  by_cases hk : k = 0
  · subst hk
    simp only [if_true]
    rw [hw (s + i) (by omega) h3]
    push_cast
    split_ifs with hc <;> omega
  · rw [if_neg hk]
    have hkpos : (1 : Int) ≤ k := by omega
    have hki : i ≤ (k : Int) * i := by nlinarith
    have hmin1 : min (s + (k : Int) * i) m ≤ m := min_le_right _ _
    have hmin2 : min (s + (k : Int) * i) m = s + (k : Int) * i ∨
        min (s + (k : Int) * i) m = m := by
      rcases le_total (s + (k : Int) * i) m with h | h
      · left; exact min_eq_left h
      · right; exact min_eq_right h
    have hlo : -2 ^ 63 ≤ min (s + (k : Int) * i) m + i := by
      rcases hmin2 with h | h <;> rw [h] <;> omega
    rw [hw _ hlo (by omega)]
    have e : s + ((k + 1 : Nat) : Int) * i = s + (k : Int) * i + i := by push_cast; ring
    rw [e]
    rcases hmin2 with h | h
    · rw [h]
      split_ifs with hc
      · exact (min_eq_right (by omega)).symm
      · exact (min_eq_left (by omega)).symm
    · rw [h]
      have hm : m ≤ s + (k : Int) * i := by
        have := min_le_left (s + (k : Int) * i) m; omega
      split_ifs with hc
      · exact (min_eq_right (by omega)).symm
      · have hmi : m + i = m := by omega
        rw [hmi]
        exact (min_eq_right (by omega)).symm

theorem ramp_core (cfg : Config) (rl0 : RateLimiter)
    (hinc : 0 ≤ cfg.LoadPattern.Increment)
    (h1 : -2 ^ 63 ≤ cfg.LoadPattern.StartRPS) (h2 : -2 ^ 63 ≤ cfg.MaxRPS)
    (h3 : cfg.LoadPattern.StartRPS + cfg.LoadPattern.Increment < 2 ^ 63)
    (h4 : cfg.MaxRPS + cfg.LoadPattern.Increment < 2 ^ 63) :
    ∀ k : Nat, 1 ≤ k →
      (∀ j : Nat, 1 ≤ j → j ≤ k →
        min (cfg.LoadPattern.StartRPS + (j : Int) * cfg.LoadPattern.Increment) cfg.MaxRPS ≠ 0) →
      ∃ rl, controlRun cfg { exited := false, currentRPS := cfg.LoadPattern.StartRPS } rl0
          (List.replicate k .tick)
        = .ok ({ exited := false,
                 currentRPS := min (cfg.LoadPattern.StartRPS
                   + (k : Int) * cfg.LoadPattern.Increment) cfg.MaxRPS }, rl) ∧
        rl.rate = f64 ((min (cfg.LoadPattern.StartRPS
          + (k : Int) * cfg.LoadPattern.Increment) cfg.MaxRPS : Int) : ℚ) := by
  have gen : ∀ k : Nat,
      (∀ j : Nat, 1 ≤ j → j ≤ k →
        min (cfg.LoadPattern.StartRPS + (j : Int) * cfg.LoadPattern.Increment) cfg.MaxRPS ≠ 0) →
      ∃ rl, controlRun cfg { exited := false, currentRPS := cfg.LoadPattern.StartRPS } rl0
          (List.replicate k .tick)
        = .ok ({ exited := false,
                 currentRPS := if k = 0 then cfg.LoadPattern.StartRPS
                   else min (cfg.LoadPattern.StartRPS
                     + (k : Int) * cfg.LoadPattern.Increment) cfg.MaxRPS }, rl) ∧
        (1 ≤ k → rl.rate = f64 ((min (cfg.LoadPattern.StartRPS
          + (k : Int) * cfg.LoadPattern.Increment) cfg.MaxRPS : Int) : ℚ)) := by
    intro k
    induction k with
    | zero =>
      intro _
      exact ⟨rl0, rfl, fun h => absurd h (by decide)⟩
    | succ k ih =>
      intro hnz
      obtain ⟨rl, hrun, -⟩ := ih (fun j a b => hnz j a (by omega))
      rw [controlRun_ticks_succ, hrun]
      simp only [controlStep, Bool.false_eq_true, if_false]
      rw [ramp_value_step hinc h1 h2 h3 h4]
      have hne := hnz (k + 1) (by omega) le_rfl
      rw [UpdateRate_ok rl hne]
      simp only [Nat.succ_ne_zero, if_false]
      exact ⟨_, rfl, fun _ => rfl⟩
  intro k hk hnz
  obtain ⟨rl, hrun, hrate⟩ := gen k hnz
  rw [if_neg (by omega)] at hrun
  exact ⟨rl, hrun, hrate hk⟩

theorem controlStart_ramp {cfg : Config} (htype : cfg.LoadPattern.PatternType = "ramp-up")
    (hint : 0 < cfg.LoadPattern.Interval) :
    controlStart cfg = .ok { exited := false, currentRPS := cfg.LoadPattern.StartRPS } := by
  unfold controlStart
  rw [htype]
  simp only [bne_self_eq_false, Bool.false_eq_true, if_false]
  rw [if_neg (by omega)]

/-- The ramp-up scenario of the specification stays clamped: after 2 ticks and after every
later tick the pushed rate and the rate of the limiter are 20. -/
theorem scenario_stays_clamped (k : Nat) (hk : 2 ≤ k) :
    ∃ c rl, controlLoadPattern scenarioPool (List.replicate k .tick) = .ok (c, rl) ∧
      c.currentRPS = 20 ∧ rl.rate = 20 := by
  obtain ⟨rl, hrun, hrate⟩ := ramp_core scenarioConfig exampleLimiter (by decide) (by decide)
    (by decide) (by decide) (by decide) k (by omega) (by
      intro j hj _
      show min ((10 : Int) + (j : Int) * 5) 20 ≠ 0
      have : (1 : Int) ≤ j := by exact_mod_cast hj
      omega)
  have hv : min (scenarioConfig.LoadPattern.StartRPS
      + (k : Int) * scenarioConfig.LoadPattern.Increment) scenarioConfig.MaxRPS = 20 := by
    show min ((10 : Int) + (k : Int) * 5) 20 = 20
    have : (2 : Int) ≤ k := by exact_mod_cast hk
    omega
  rw [hv] at hrun hrate
  refine ⟨{ exited := false, currentRPS := 20 }, rl, ?_, rfl, ?_⟩
  · unfold controlLoadPattern
    rw [show scenarioPool.config = scenarioConfig from rfl,
      @controlStart_ramp scenarioConfig rfl (by decide)]
    exact hrun
  · rw [hrate, f64_intCast (by norm_num)]; norm_num

/-- C9, as stated, fails in two ways.  With `MaxRPS = 0` (start 10, increment 5) the first
tick clamps the rate to 0 and `UpdateRate 0` panics with an integer division by zero, so there
is no limiter afterwards.  With start `2 ^ 62`, increment `2 ^ 62` and ceiling `2 ^ 63 - 1`
the raise overflows `int`: the first tick pushes `-2 ^ 63`, not
`min (2 ^ 62 + 2 ^ 62) (2 ^ 63 - 1) = 2 ^ 63 - 1`. -/
theorem ramp_up_rate_counterexample :
    controlLoadPattern noCeilingPool [.tick] = .error .divideByZero ∧
    (∃ rl, controlLoadPattern overflowPool [.tick]
        = .ok ({ exited := false, currentRPS := -2 ^ 63 }, rl)) ∧
    min ((2 : Int) ^ 62 + 1 * 2 ^ 62) (2 ^ 63 - 1) = 2 ^ 63 - 1 := by
  refine ⟨?_, ?_, by decide⟩
  · unfold controlLoadPattern
    rw [@controlStart_ramp noCeilingPool.config rfl (by decide)]
    rfl
  · unfold controlLoadPattern
    rw [@controlStart_ramp overflowPool.config rfl (by decide)]
    exact ⟨_, rfl⟩

/-- C9, amended: in the ramp-up pattern (positive ticker interval) with increment `≥ 0`,
when `StartRPS + Increment` and `MaxRPS + Increment` stay inside the range of `int` and none
of the values `min (StartRPS + j * Increment) MaxRPS` for `1 ≤ j ≤ k` is 0, the `k`-th tick
(`k ≥ 1`) pushes `min (StartRPS + k * Increment) MaxRPS` into the limiter and the rate of the
limiter is `float64` of that value afterwards (the value itself when it is at most `2 ^ 53`
in absolute value); once `MaxRPS` has been reached at a tick `k0 ≤ k`, the `k`-th tick leaves
the rate at `MaxRPS`. -/
theorem ramp_up_rate (p : Pool) (k : Nat) (hk : 1 ≤ k)
    (htype : p.config.LoadPattern.PatternType = "ramp-up")
    (hint : 0 < p.config.LoadPattern.Interval)
    (hinc : 0 ≤ p.config.LoadPattern.Increment)
    (h1 : -2 ^ 63 ≤ p.config.LoadPattern.StartRPS) (h2 : -2 ^ 63 ≤ p.config.MaxRPS)
    (h3 : p.config.LoadPattern.StartRPS + p.config.LoadPattern.Increment < 2 ^ 63)
    (h4 : p.config.MaxRPS + p.config.LoadPattern.Increment < 2 ^ 63)
    (hnz : ∀ j : Nat, 1 ≤ j → j ≤ k →
      min (p.config.LoadPattern.StartRPS + (j : Int) * p.config.LoadPattern.Increment)
        p.config.MaxRPS ≠ 0) :
    ∃ c rl, controlLoadPattern p (List.replicate k .tick) = .ok (c, rl) ∧
      c.exited = false ∧
      c.currentRPS = min (p.config.LoadPattern.StartRPS
        + (k : Int) * p.config.LoadPattern.Increment) p.config.MaxRPS ∧
      rl.rate = f64 ((min (p.config.LoadPattern.StartRPS
        + (k : Int) * p.config.LoadPattern.Increment) p.config.MaxRPS : Int) : ℚ) ∧
      (|min (p.config.LoadPattern.StartRPS
          + (k : Int) * p.config.LoadPattern.Increment) p.config.MaxRPS| ≤ 2 ^ 53 →
        rl.rate = ((min (p.config.LoadPattern.StartRPS
          + (k : Int) * p.config.LoadPattern.Increment) p.config.MaxRPS : Int) : ℚ)) ∧
      (∀ k0 : Nat, 1 ≤ k0 → k0 ≤ k →
        p.config.MaxRPS ≤ p.config.LoadPattern.StartRPS
          + (k0 : Int) * p.config.LoadPattern.Increment →
        c.currentRPS = p.config.MaxRPS ∧ rl.rate = f64 (p.config.MaxRPS : ℚ)) := by
  obtain ⟨rl, hrun, hrate⟩ := ramp_core p.config p.rateLimiter hinc h1 h2 h3 h4 k hk hnz
  refine ⟨{ exited := false,
             currentRPS := min (p.config.LoadPattern.StartRPS
               + (k : Int) * p.config.LoadPattern.Increment) p.config.MaxRPS },
    rl, ?_, rfl, rfl, hrate, ?_, ?_⟩
  · unfold controlLoadPattern
    rw [controlStart_ramp htype hint]
    exact hrun
  · intro habs
    rw [hrate, f64_intCast habs]
  · intro k0 _ hk0 hreach
    have hmono : p.config.LoadPattern.StartRPS + (k0 : Int) * p.config.LoadPattern.Increment
        ≤ p.config.LoadPattern.StartRPS + (k : Int) * p.config.LoadPattern.Increment := by
      have : (k0 : Int) ≤ k := by exact_mod_cast hk0
      nlinarith
    have hv : min (p.config.LoadPattern.StartRPS
        + (k : Int) * p.config.LoadPattern.Increment) p.config.MaxRPS = p.config.MaxRPS :=
      min_eq_right (le_trans hreach hmono)
    exact ⟨hv, by rw [hrate, hv]⟩

/-- C9 amended, instantiated at the scenario of the specification (start 10, increment 5,
ceiling 20): after 2 ticks the pushed rate and the rate of the limiter are 20. -/
theorem ramp_up_rate_witness :
    (1 ≤ 2) ∧
    scenarioPool.config.LoadPattern.PatternType = "ramp-up" ∧
    0 < scenarioPool.config.LoadPattern.Interval ∧
    0 ≤ scenarioPool.config.LoadPattern.Increment ∧
    -2 ^ 63 ≤ scenarioPool.config.LoadPattern.StartRPS ∧
    -2 ^ 63 ≤ scenarioPool.config.MaxRPS ∧
    scenarioPool.config.LoadPattern.StartRPS + scenarioPool.config.LoadPattern.Increment
      < 2 ^ 63 ∧
    scenarioPool.config.MaxRPS + scenarioPool.config.LoadPattern.Increment < 2 ^ 63 ∧
    (∀ j : Nat, 1 ≤ j → j ≤ 2 →
      min (scenarioPool.config.LoadPattern.StartRPS
        + (j : Int) * scenarioPool.config.LoadPattern.Increment)
        scenarioPool.config.MaxRPS ≠ 0) ∧
    ∃ c rl, controlLoadPattern scenarioPool [.tick, .tick] = .ok (c, rl) ∧
      c.exited = false ∧ c.currentRPS = 20 ∧ rl.rate = 20 := by
  have hnz : ∀ j : Nat, 1 ≤ j → j ≤ 2 →
      min (scenarioPool.config.LoadPattern.StartRPS
        + (j : Int) * scenarioPool.config.LoadPattern.Increment)
        scenarioPool.config.MaxRPS ≠ 0 := by
    intro j hj _
    show min ((10 : Int) + (j : Int) * 5) 20 ≠ 0
    have : (1 : Int) ≤ j := by exact_mod_cast hj
    omega
  refine ⟨by decide, rfl, by decide, by decide, by decide, by decide, by decide, by decide,
    hnz, ?_⟩
  obtain ⟨c, rl, hrun, hex, hc, -, hr, -⟩ := ramp_up_rate scenarioPool 2 (by decide) rfl
    (by decide) (by decide) (by decide) (by decide) (by decide) (by decide) hnz
  have hv : min (scenarioPool.config.LoadPattern.StartRPS
      + ((2 : Nat) : Int) * scenarioPool.config.LoadPattern.Increment)
      scenarioPool.config.MaxRPS = 20 := by decide
  rw [hv] at hc hr
  exact ⟨c, rl, hrun, hex, hc, by rw [hr (by norm_num)]; norm_num⟩

/-! ## One request -/

theorem executeEndpoint_spec (p : Pool) (c : Collaborators) (ep : Endpoint) (duration : Int)
    (hlen : p.latencies.length ≤ 1000) :
    ∃ r success,
      executeEndpoint p c ep duration = .ok r ∧
      r.recorded = [success] ∧
      updateMetrics p duration success = .ok r.pool ∧
      (success = true ↔
        renderingSucceeds c ep = true ∧
        ∃ req, r.sent = [req] ∧ (c.Do req).1 = none ∧
          200 ≤ (c.Do req).2 ∧ (c.Do req).2 < 300) ∧
      (renderingSucceeds c ep = false → r.sent = [] ∧ success = false) ∧
      (renderingSucceeds c ep = true → ∃ req, r.sent = [req]) := by
  obtain ⟨pf, hpf, -⟩ := updateMetrics_spec p duration false hlen
  have hfail : ∀ hr : renderingSucceeds c ep = false,
      executeEndpoint p c ep duration = .ok { pool := pf, recorded := [false], sent := [] } →
      ∃ r success,
        executeEndpoint p c ep duration = .ok r ∧
        r.recorded = [success] ∧
        updateMetrics p duration success = .ok r.pool ∧
        (success = true ↔
          renderingSucceeds c ep = true ∧
          ∃ req, r.sent = [req] ∧ (c.Do req).1 = none ∧
            200 ≤ (c.Do req).2 ∧ (c.Do req).2 < 300) ∧
        (renderingSucceeds c ep = false → r.sent = [] ∧ success = false) ∧
        (renderingSucceeds c ep = true → ∃ req, r.sent = [req]) := by
    intro hr he
    refine ⟨_, false, he, rfl, hpf, ?_, ?_, ?_⟩
    · simp [hr]
    · intro _; exact ⟨rfl, rfl⟩
    · intro h; rw [hr] at h; cases h
  have hsucc : ∀ (req : Request), renderingSucceeds c ep = true →
      (∀ q, updateMetrics p duration
          ((c.Do req).1.isNone && decide ((c.Do req).2 ≥ 200) && decide ((c.Do req).2 < 300))
          = .ok q →
        executeEndpoint p c ep duration = .ok
          { pool := q
            recorded := [(c.Do req).1.isNone && decide ((c.Do req).2 ≥ 200)
              && decide ((c.Do req).2 < 300)]
            sent := [req] }) →
      ∃ r success,
        executeEndpoint p c ep duration = .ok r ∧
        r.recorded = [success] ∧
        updateMetrics p duration success = .ok r.pool ∧
        (success = true ↔
          renderingSucceeds c ep = true ∧
          ∃ req, r.sent = [req] ∧ (c.Do req).1 = none ∧
            200 ≤ (c.Do req).2 ∧ (c.Do req).2 < 300) ∧
        (renderingSucceeds c ep = false → r.sent = [] ∧ success = false) ∧
        (renderingSucceeds c ep = true → ∃ req, r.sent = [req]) := by
    intro req hr he
    obtain ⟨q, hq, -⟩ := updateMetrics_spec p duration
      ((c.Do req).1.isNone && decide ((c.Do req).2 ≥ 200) && decide ((c.Do req).2 < 300)) hlen
    refine ⟨_, _, he q hq, rfl, hq, ?_, ?_, ?_⟩
    · simp only [hr, true_and, List.cons.injEq, and_true, exists_eq_left', Bool.and_eq_true,
        decide_eq_true_eq, Option.isNone_iff_eq_none, ge_iff_le]
      constructor
      · rintro ⟨⟨a, b⟩, d⟩; exact ⟨a, b, d⟩
      · rintro ⟨a, b, d⟩; exact ⟨⟨a, b⟩, d⟩
    · intro h; rw [hr] at h; cases h
    · intro _; exact ⟨req, rfl⟩
  cases hH : ProcessMap c ep.Headers with
  | error e =>
    apply hfail
    · simp [renderingSucceeds, hH]
    · simp [executeEndpoint, hH, hpf]
  | ok headers =>
    by_cases hq : ep.QueryParams.length > 0
    · have hne : ep.QueryParams.isEmpty = false := by
        cases hqp : ep.QueryParams with
        | nil => rw [hqp] at hq; simp at hq
        | cons a l => rfl
      cases hQ : ProcessMap c ep.QueryParams with
      | error e =>
        apply hfail
        · simp [renderingSucceeds, hH, hQ, hne]
        · simp [executeEndpoint, hH, hQ, hq, hpf]
      | ok qs =>
        cases hB : ep.Body with
        | none =>
          apply hsucc { Method := ep.Method, URI := ep.URL, Headers := headers,
                        QueryArgs := qs, Body := none }
          · simp [renderingSucceeds, hH, hB, hQ, hq, hne]
          · intro q hq'
            simp [executeEndpoint, hH, hB, hQ, hq, hne, hq']
        | some b =>
          cases hM : c.Marshal b with
          | error e =>
            apply hfail
            · simp [renderingSucceeds, hH, hB, hM, hQ, hq, hne]
            · simp [executeEndpoint, hH, hB, hM, hQ, hq, hne, hpf]
          | ok bodyStr =>
            cases hT : c.ProcessTemplate bodyStr with
            | error e =>
              apply hfail
              · simp [renderingSucceeds, hH, hB, hM, hT, hQ, hq, hne]
              · simp [executeEndpoint, hH, hB, hM, hT, hQ, hq, hne, hpf]
            | ok processedBody =>
              apply hsucc { Method := ep.Method, URI := ep.URL, Headers := headers,
                            QueryArgs := qs, Body := some processedBody }
              · simp [renderingSucceeds, hH, hB, hM, hT, hQ, hq, hne]
              · intro q hq'
                simp [executeEndpoint, hH, hB, hM, hT, hQ, hq, hne, hq']
    · have hne : ep.QueryParams.isEmpty = true := by
        cases hqp : ep.QueryParams with
        | nil => rfl
        | cons a l => rw [hqp] at hq; simp at hq
      cases hB : ep.Body with
      | none =>
        apply hsucc { Method := ep.Method, URI := ep.URL, Headers := headers,
                      QueryArgs := [], Body := none }
        · simp [renderingSucceeds, hH, hB, hq, hne]
        · intro q hq'
          simp [executeEndpoint, hH, hB, hq, hne, hq']
      | some b =>
        cases hM : c.Marshal b with
        | error e =>
          apply hfail
          · simp [renderingSucceeds, hH, hB, hM, hq, hne]
          · simp [executeEndpoint, hH, hB, hM, hq, hne, hpf]
        | ok bodyStr =>
          cases hT : c.ProcessTemplate bodyStr with
          | error e =>
            apply hfail
            · simp [renderingSucceeds, hH, hB, hM, hT, hq, hne]
            · simp [executeEndpoint, hH, hB, hM, hT, hq, hne, hpf]
          | ok processedBody =>
            apply hsucc { Method := ep.Method, URI := ep.URL, Headers := headers,
                          QueryArgs := [], Body := some processedBody }
            · simp [renderingSucceeds, hH, hB, hM, hT, hq, hne]
            · intro q hq'
              simp [executeEndpoint, hH, hB, hM, hT, hq, hne, hq']

/-- C10: for every pool whose endpoint list is not empty (and whose window is within its
capacity, as in every pool built by `NewPool` and `updateMetrics`), every endpoint that the
random choice can select and every behaviour of the template and transport collaborators,
`executeRequest` returns after exactly one call of `updateMetrics` on the pool it was given.
The recorded outcome is a success if and only if header, query-parameter and body rendering
all succeeded, the transport returned no error and the status code lies in `[200, 300)`.
When a rendering step fails the transport is not invoked and the recorded outcome is a
failure; when rendering succeeds the transport is invoked exactly once. -/
theorem executeRequest_outcome (p : Pool) (c : Collaborators) (pick : Nat) (duration : Int)
    (hlen : p.latencies.length ≤ 1000) (hne : p.config.Endpoints ≠ []) :
    ∃ ep r success,
      p.config.Endpoints[pick % p.config.Endpoints.length]? = some ep ∧
      executeRequest p c pick duration = .ok r ∧
      r.recorded = [success] ∧
      updateMetrics p duration success = .ok r.pool ∧
      r.pool.metrics.TotalRequests = wrap64 (p.metrics.TotalRequests + 1) ∧
      (success = true ↔
        renderingSucceeds c ep = true ∧
        ∃ req, r.sent = [req] ∧ (c.Do req).1 = none ∧
          200 ≤ (c.Do req).2 ∧ (c.Do req).2 < 300) ∧
      (renderingSucceeds c ep = false → r.sent = [] ∧ success = false) ∧
      (renderingSucceeds c ep = true → ∃ req, r.sent = [req]) := by
  have hpos : 0 < p.config.Endpoints.length := List.length_pos.mpr hne
  have hidx : pick % p.config.Endpoints.length < p.config.Endpoints.length :=
    Nat.mod_lt _ hpos
  have hget := List.getElem?_eq_getElem hidx
  obtain ⟨r, success, he, hrec, hup, hiff, hf, hs⟩ :=
    executeEndpoint_spec p c (p.config.Endpoints[pick % p.config.Endpoints.length])
      duration hlen
  obtain ⟨q, hq, -, hqt, -⟩ := updateMetrics_spec p duration success hlen
  have hqr : q = r.pool := by
    have : Except.ok q = (Except.ok r.pool : Except Panic Pool) := by rw [← hq, ← hup]
    exact Except.ok.inj this
  refine ⟨_, r, success, hget, ?_, hrec, hup, by rw [← hqr]; exact hqt, hiff, hf, hs⟩
  unfold executeRequest
  rw [if_neg (by omega), hget]
  exact he

/-- C10, instantiated: the pool of the test configuration, collaborators that render every
template and answer with status 200: one request is sent and one success is recorded. -/
theorem executeRequest_outcome_witness :
    examplePool.latencies.length ≤ 1000 ∧ examplePool.config.Endpoints ≠ [] ∧
    ∃ r req, executeRequest examplePool exampleCollaborators 0 7 = .ok r ∧
      r.recorded = [true] ∧ r.sent = [req] ∧
      updateMetrics examplePool 7 true = .ok r.pool ∧
      r.pool.metrics.TotalRequests = 1 := by
  obtain ⟨ep, r, success, hep, he, hrec, hup, ht, hiff, -, hs⟩ :=
    executeRequest_outcome examplePool exampleCollaborators 0 7 (by decide) (by decide)
  have hep2 : ep = exampleEndpoint := by
    have h : examplePool.config.Endpoints[0 % examplePool.config.Endpoints.length]?
        = some exampleEndpoint := rfl
    rw [h] at hep
    exact (Option.some.inj hep).symm
  subst hep2
  have hrend : renderingSucceeds exampleCollaborators exampleEndpoint = true := rfl
  obtain ⟨req, hreq⟩ := hs hrend
  have hsucc : success = true :=
    hiff.mpr ⟨hrend, req, hreq, rfl, show (200 : Int) ≤ 200 by decide,
      show (200 : Int) < 300 by decide⟩
  subst hsucc
  refine ⟨by decide, by decide, r, req, he, hrec, hreq, hup, ?_⟩
  rw [ht]; rfl

/-! ## The controller and the stop signal -/

/-- The stop event leaves the controller and the limiter as they are: a run of the loop
over any sequence of events equals the run over the same sequence with the stop events
removed. -/
theorem controlRun_stop_ignored (cfg : Config) (events : List ControlEvent) :
    ∀ (c : Controller) (rl : RateLimiter),
      controlRun cfg c rl events
        = controlRun cfg c rl (events.filter (fun ev => decide (ev ≠ .stop))) := by
  induction events with
  | nil => intro c rl; rfl
  | cons ev rest ih =>
    intro c rl
    cases ev with
    | stop =>
      have hf : (ControlEvent.stop :: rest).filter (fun ev => decide (ev ≠ .stop))
          = rest.filter (fun ev => decide (ev ≠ .stop)) := by
        simp
      rw [hf, ← ih c rl]
      rfl
    | tick =>
      have hf : (ControlEvent.tick :: rest).filter (fun ev => decide (ev ≠ .stop))
          = .tick :: rest.filter (fun ev => decide (ev ≠ .stop)) := by
        simp
      rw [hf]
      simp only [controlRun]
      cases controlStep cfg c rl .tick with
      | error e => rfl
      | ok v => exact ih v.1 v.2
    | ctxDone =>
      have hf : (ControlEvent.ctxDone :: rest).filter (fun ev => decide (ev ≠ .stop))
          = .ctxDone :: rest.filter (fun ev => decide (ev ≠ .stop)) := by
        simp
      rw [hf]
      simp only [controlRun]
      cases controlStep cfg c rl .ctxDone with
      | error e => rfl
      | ok v => exact ih v.1 v.2

/-- Without a cancellation the loop does not return: over events that are ticks and stops
only, a controller that has not exited has not exited afterwards either. -/
theorem controlRun_not_exited (cfg : Config) (events : List ControlEvent)
    (hev : ∀ ev ∈ events, ev ≠ .ctxDone) :
    ∀ (c c1 : Controller) (rl rl1 : RateLimiter), c.exited = false →
      controlRun cfg c rl events = .ok (c1, rl1) → c1.exited = false := by
  induction events with
  | nil =>
    intro c c1 rl rl1 hc h
    simp only [controlRun] at h
    cases h
    exact hc
  | cons ev rest ih =>
    intro c c1 rl rl1 hc h
    have hrest : ∀ e ∈ rest, e ≠ .ctxDone := fun e he => hev e (List.mem_cons_of_mem _ he)
    cases ev with
    | ctxDone => exact absurd rfl (hev .ctxDone (List.mem_cons_self _ _))
    | stop =>
      simp only [controlRun, controlStep] at h
      exact ih hrest c c1 rl rl1 hc h
    | tick =>
      simp only [controlRun, controlStep, hc, Bool.false_eq_true, if_false] at h
      cases hu : UpdateRate rl (if wrap64 (c.currentRPS + cfg.LoadPattern.Increment)
          > cfg.MaxRPS then cfg.MaxRPS
          else wrap64 (c.currentRPS + cfg.LoadPattern.Increment)) with
      | error e => rw [hu] at h; cases h
      | ok rl2 =>
        rw [hu] at h
        simp only at h
        exact ih hrest _ c1 rl2 rl1 rfl h

/-- C11, the code at the events stop, tick in the ramp-up scenario (start 10, increment 5,
ceiling 20) with no cancellation: after the stop signal the controller has not exited and
the limiter is untouched; the tick that follows is still served, and `UpdateRate` moves the
rate of the limiter from 10 to 15. -/
theorem controller_ignores_stop :
    scenarioPool.rateLimiter.rate = 10 ∧
    controlLoadPattern scenarioPool [.stop]
      = .ok ({ exited := false, currentRPS := 10 }, scenarioPool.rateLimiter) ∧
    ∃ rl, controlLoadPattern scenarioPool [.stop, .tick]
        = .ok ({ exited := false, currentRPS := 15 }, rl) ∧
      rl.rate = 15 := by
  have h10 : f64 (((10 : Int)) : ℚ) = 10 := by
    rw [f64_intCast (n := 10) (by norm_num)]; norm_num
  have h15 : f64 (((15 : Int)) : ℚ) = 15 := by
    rw [f64_intCast (n := 15) (by norm_num)]; norm_num
  refine ⟨h10, rfl, _, rfl, h15⟩

/-! ## One caller against the limiter -/

theorem unitState_inv (t : Int) {tokens : ℚ} (h0 : 0 ≤ tokens) (h1 : tokens ≤ 1)
    (hrep : Representable tokens) : LimiterInv (unitState t tokens) :=
  ⟨h0, h1, hrep, ⟨1, 0, by norm_num, by simp [unitState]⟩, le_rfl⟩

theorem representable_zero : Representable 0 := ⟨0, 0, by norm_num, by norm_num⟩

theorem representable_one : Representable 1 := ⟨1, 0, by norm_num, by norm_num⟩

theorem unitLimiter_eq : unitLimiter = unitState 0 1 := by
  have h1 : f64 (((1 : Int)) : ℚ) = 1 := by
    rw [f64_intCast (n := 1) (by norm_num)]; norm_num
  unfold unitLimiter unitState
  rw [h1]

theorem Seconds_one : Seconds 1000000000 = 1 := by
  have h1 : Int.tdiv 1000000000 Second = 1 := by decide
  have h2 : Int.tmod 1000000000 Second = 0 := by decide
  unfold Seconds
  rw [h1, h2]
  simp [f64_zero, f64_one]

theorem wait_full (t : Int) :
    Wait (unitState t 1) t false =
      { err := none
        waitTime := 0
        suspended := false
        state := unitState t 0 } := by
  have hinv := @unitState_inv t 1 (by norm_num) le_rfl representable_one
  have hrf : refill (unitState t 1) t = 1 := refill_same_time hinv rfl
  rw [Wait_of_one_le false (by rw [hrf]), hrf]
  simp [unitState, f64_zero]

theorem wait_empty (t : Int) :
    Wait (unitState t 0) t false =
      { err := none
        waitTime := 1000000000
        suspended := true
        state := unitState t 0 } := by
  have hinv := @unitState_inv t 0 le_rfl (by norm_num) representable_zero
  have hrf : refill (unitState t 0) t = 0 := refill_same_time hinv rfl
  have hS : f64 ((Second : Int) : ℚ) = (Second : ℚ) :=
    f64_intCast (n := Second) (by unfold Second; norm_num)
  have hw : truncToInt (f64 (f64 (f64 (1 - 0) / (unitState t 0).rate) * (Second : ℚ)))
      = 1000000000 := by
    have hr : (unitState t 0).rate = 1 := rfl
    rw [hr, sub_zero, f64_one, div_one, f64_one, one_mul, hS]
    unfold truncToInt Second
    norm_num
  rw [Wait_of_lt_one false (by rw [hrf]; norm_num), hrf, hw]
  simp [unitState, f64_zero]

theorem wait_credited (t : Int) :
    Wait (unitState t 0) (t + 1000000000) false =
      { err := none
        waitTime := 0
        suspended := false
        state := unitState (t + 1000000000) 0 } := by
  have hsub : timeSub (t + 1000000000) t = 1000000000 := by
    unfold timeSub maxDuration minDuration
    have e : t + 1000000000 - t = 1000000000 := by ring
    rw [e]
    norm_num
  have hrf : refill (unitState t 0) (t + 1000000000) = 1 := by
    unfold refill
    have hl : (unitState t 0).lastCheck = t := rfl
    have hr : (unitState t 0).rate = 1 := rfl
    have ht : (unitState t 0).tokens = 0 := rfl
    simp only [hl, hr, ht, hsub, Seconds_one, mul_one, f64_one, zero_add]
    norm_num
  rw [Wait_of_one_le false (by rw [hrf]), hrf]
  simp [unitState, f64_zero]

theorem seq_full (t : Int) (rest : List Int) :
    sequentialWaits (unitState t 1) t (0 :: rest)
      = (t, none) :: sequentialWaits (unitState t 0) t rest := by
  simp only [sequentialWaits, add_zero, wait_full]
  simp

theorem seq_empty (t : Int) (rest : List Int) :
    sequentialWaits (unitState t 0) t (0 :: rest)
      = (t + 1000000000, none) :: sequentialWaits (unitState t 0) (t + 1000000000) rest := by
  simp only [sequentialWaits, add_zero, wait_empty]
  simp

theorem seq_credited (t : Int) (rest : List Int) :
    sequentialWaits (unitState t 0) (t + 1000000000) (0 :: rest)
      = (t + 1000000000, none)
        :: sequentialWaits (unitState (t + 1000000000) 0) (t + 1000000000) rest := by
  simp only [sequentialWaits, add_zero, wait_credited]
  simp

/-- A caller that keeps the limiter of rate 1 saturated is admitted twice per second: from an
empty bucket at time `t`, the `2 * n` calls issued back to back all return success, at times
between `t + 1 s` and `t + n s`. -/
theorem saturated_caller (n : Nat) :
    ∀ t : Int,
      (sequentialWaits (unitState t 0) t (List.replicate (2 * n) 0)).length = 2 * n ∧
      ∀ x ∈ sequentialWaits (unitState t 0) t (List.replicate (2 * n) 0),
        x.2 = none ∧ t ≤ x.1 ∧ x.1 ≤ t + n * 1000000000 := by
  induction n with
  | zero =>
    intro t
    simp [sequentialWaits]
  | succ n ih =>
    intro t
    have e : List.replicate (2 * (n + 1)) (0 : Int) = 0 :: 0 :: List.replicate (2 * n) 0 := by
      have : 2 * (n + 1) = (2 * n + 1) + 1 := by ring
      rw [this, List.replicate_succ, List.replicate_succ]
    rw [e, seq_empty, seq_credited]
    obtain ⟨hlen, hmem⟩ := ih (t + 1000000000)
    constructor
    · simp only [List.length_cons, hlen]; ring
    · intro x hx
      simp only [List.mem_cons] at hx
      have hn : (0 : Int) ≤ n := Int.ofNat_nonneg n
      rcases hx with hx | hx | hx
      · subst hx
        refine ⟨rfl, by simp, ?_⟩
        push_cast
        nlinarith
      · subst hx
        refine ⟨rfl, by simp, ?_⟩
        push_cast
        nlinarith
      · obtain ⟨h1, h2, h3⟩ := hmem x hx
        refine ⟨h1, by linarith, ?_⟩
        push_cast
        linarith

/-- From a full bucket of rate 1, a caller that issues `2 * n + 1` calls back to back has
all of them admitted within the first `n` seconds. -/
theorem full_bucket_caller (n : Nat) :
    admittedWithin (sequentialWaits unitLimiter 0 (List.replicate (2 * n + 1) 0)) 0
      (n * Second) = 2 * n + 1 := by
  obtain ⟨hlen, hmem⟩ := saturated_caller n 0
  rw [unitLimiter_eq, List.replicate_succ, seq_full]
  unfold admittedWithin
  rw [List.filter_eq_self.mpr]
  · simp only [List.length_cons, hlen]
  · intro x hx
    simp only [List.mem_cons] at hx
    have hn : (0 : Int) ≤ n := Int.ofNat_nonneg n
    rcases hx with hx | hx
    · subst hx
      simp only [Option.isNone_none, Bool.true_and, Bool.and_eq_true, decide_eq_true_eq]
      unfold Second
      constructor <;> nlinarith
    · obtain ⟨h1, h2, h3⟩ := hmem x hx
      simp only [h1, Option.isNone_none, Bool.true_and, Bool.and_eq_true, decide_eq_true_eq]
      unfold Second
      constructor <;> linarith

/-- C12, the code at the rate 1 and a caller that issues seven calls back to back on a fresh
limiter: the calls return success at 0, 1, 1, 2, 2, 3 and 3 seconds, so seven calls are
admitted within a span of 3 seconds, more than `R * T + R = 4`.  Every call that suspends
leaves `lastCheck` at the time before the wait, and the next call is credited the time
waited once more. -/
theorem limiter_admits_double_rate :
    sequentialWaits unitLimiter 0 [0, 0, 0, 0, 0, 0, 0]
      = [(0, none), (1000000000, none), (1000000000, none), (2000000000, none),
         (2000000000, none), (3000000000, none), (3000000000, none)] ∧
    admittedWithin (sequentialWaits unitLimiter 0 [0, 0, 0, 0, 0, 0, 0]) 0 (3 * Second) = 7 ∧
    ¬ (7 ≤ 1 * 3 + 1) := by
  have hrun : sequentialWaits unitLimiter 0 [0, 0, 0, 0, 0, 0, 0]
      = [(0, none), (1000000000, none), (1000000000, none), (2000000000, none),
         (2000000000, none), (3000000000, none), (3000000000, none)] := by
    rw [unitLimiter_eq, seq_full, seq_empty, seq_credited, seq_empty, seq_credited,
      seq_empty, seq_credited]
    simp only [sequentialWaits]
    norm_num
  refine ⟨hrun, ?_, by decide⟩
  rw [hrun]
  decide

end StressTester
